import Mathlib

/-!
Verification development for the DokkanScraperSite repository
(source files `dokkaninfoBS4scraper.py`, `scraper.py`, `dokkan_api.py`).

Strings are modelled as `List Char`.  The concrete regular expressions the
code uses are embedded as explicit character-list matchers; Python's `\s`
and `\d` classes are modelled on the ASCII range.  Python dictionaries are
modelled as insertion-ordered association lists whose update semantics
(replace the value in place when the key exists, append otherwise) mirror
CPython.
-/

namespace Dokkan

/-- Python whitespace (`\s`) on the ASCII range. -/
def isPySpace (c : Char) : Bool :=
  c = ' ' || c = '\t' || c = '\n' || c = '\r' || c = '\x0b' || c = '\x0c'

/-- ASCII decimal digit, Python `\d`. -/
def isAsciiDigit (c : Char) : Bool := '0' ≤ c && c ≤ '9'

/-- Sentence-terminal characters of the lookbehind class in
`_dedup_sentences` of dokkaninfoBS4scraper.py: `(?<=[.!?])`. -/
def isSentEnd (c : Char) : Bool := c = '.' || c = '!' || c = '?'

/-- Sentence-terminal character of the lookbehind class in `_clean_leader`
of scraper.py: `(?<=[.])`. -/
def isDotEnd (c : Char) : Bool := c = '.'

/-- True when the list starts with a whitespace character. -/
def headIsSpace : List Char → Bool
  | [] => false
  | c :: _ => isPySpace c

/-- Python `re.split(r'(?<=[E])\s+', text)` for a one-character lookbehind
class `E`: a split point is a character satisfying `e` followed by a
(maximal, consumed) run of whitespace; the `e`-character stays with the
left part.  `acc` holds the current part, reversed. -/
def re_split_after (e : Char → Bool) : List Char → List Char → List (List Char)
  | [], acc => [acc.reverse]
  | c :: rest, acc =>
    if e c && headIsSpace rest then
      (acc.reverse ++ [c]) :: re_split_after e (rest.dropWhile isPySpace) []
    else
      re_split_after e rest (c :: acc)
termination_by l _ => l.length
decreasing_by
  · exact Nat.lt_succ_of_le ((List.dropWhile_sublist _).length_le)
  · exact Nat.lt_succ_self _

/-- Python `str.strip()` of trailing whitespace. -/
def pyStripEnd (l : List Char) : List Char := (l.reverse.dropWhile isPySpace).reverse

/-- Python `str.strip()` (whitespace model as `isPySpace`). -/
def pyStrip (l : List Char) : List Char := pyStripEnd (l.dropWhile isPySpace)

/-- The "seen-set" de-duplication loop used throughout the scrapers
(`for x in xs: if x not in seen: seen.add(x); out.append(x)`). -/
def dedup_seen {α : Type} [DecidableEq α] (seen : List α) : List α → List α
  | [] => []
  | x :: xs => if x ∈ seen then dedup_seen seen xs else x :: dedup_seen (x :: seen) xs

/-- Python `" ".join(parts)`. -/
def joinSp : List (List Char) → List Char
  | [] => []
  | [p] => p
  | p :: ps => p ++ ' ' :: joinSp ps

/-- `_dedup_sentences(text)` of dokkaninfoBS4scraper.py (lines 187–195):
split on sentence-terminal punctuation followed by whitespace, strip each
part, drop empty parts, keep the first occurrence of each part, and
re-join with single spaces. -/
def dedup_sentences (text : List Char) : List Char :=
  joinSp (dedup_seen []
    (((re_split_after isSentEnd text []).map pyStrip).filter (fun p => !p.isEmpty)))

/-- No split point between two adjacent characters: not (`e`-terminal
followed by whitespace). -/
def noBreakR (e : Char → Bool) (c d : Char) : Prop :=
  ¬(e c = true ∧ isPySpace d = true)

/-- The part ends with an `e`-terminal character. -/
def endsTerm (e : Char → Bool) (l : List Char) : Prop :=
  ∃ c, l.getLast? = some c ∧ e c = true

/-- The part pipeline of `_dedup_sentences` before re-joining: split, strip,
drop empties, de-duplicate. -/
def sentence_parts (e : Char → Bool) (text : List Char) : List (List Char) :=
  dedup_seen [] (((re_split_after e text []).map pyStrip).filter (fun p => !p.isEmpty))

/-- Python `re.sub(r"\s+", " ", text)`: each maximal whitespace run becomes
a single space. -/
def collapseWs : List Char → List Char
  | [] => []
  | c :: rest =>
    if isPySpace c then ' ' :: collapseWs (rest.dropWhile isPySpace)
    else c :: collapseWs rest
termination_by l => l.length
decreasing_by
  · exact Nat.lt_succ_of_le ((List.dropWhile_sublist _).length_le)
  · exact Nat.lt_succ_self _

/-- `_condense_spaces(text)` (both scraper variants):
`re.sub(r"\s+", " ", text).strip()`. -/
def condense_spaces (text : List Char) : List Char := pyStrip (collapseWs text)

/-- One token of the concrete regular expressions used by the scrapers. -/
inductive Tok where
  | lit (s : List Char)
  | litCI (s : List Char)
  | ws0
  | cls1 (f : Char → Bool)
  | one (f : Char → Bool)

/-- Case-sensitive literal match; returns (consumed, rest). -/
def matchLit : List Char → List Char → Option (List Char × List Char)
  | [], s => some ([], s)
  | _ :: _, [] => none
  | c :: cs, d :: ds =>
    if c = d then (matchLit cs ds).map (fun r => (d :: r.1, r.2)) else none

/-- Case-insensitive literal match (`re.IGNORECASE`); returns
(consumed, rest). -/
def matchLitCI : List Char → List Char → Option (List Char × List Char)
  | [], s => some ([], s)
  | _ :: _, [] => none
  | c :: cs, d :: ds =>
    if c.toLower = d.toLower then (matchLitCI cs ds).map (fun r => (d :: r.1, r.2)) else none

/-- Match one token greedily.  All the embedded patterns are deterministic:
each greedy token is followed by a character that cannot extend it, so
greedy matching without backtracking agrees with Python's engine. -/
def matchTok : Tok → List Char → Option (List Char × List Char)
  | .lit l, s => matchLit l s
  | .litCI l, s => matchLitCI l s
  | .ws0, s => some (s.takeWhile isPySpace, s.dropWhile isPySpace)
  | .cls1 f, s =>
    match s with
    | [] => none
    | c :: _ => if f c then some (s.takeWhile f, s.dropWhile f) else none
  | .one f, s =>
    match s with
    | [] => none
    | c :: rest => if f c then some ([c], rest) else none

/-- Match a token sequence; returns (consumed, rest). -/
def matchToks : List Tok → List Char → Option (List Char × List Char)
  | [], s => some ([], s)
  | t :: ts, s =>
    match matchTok t s with
    | none => none
    | some (c1, r1) =>
      match matchToks ts r1 with
      | none => none
      | some (c2, r2) => some (c1 ++ c2, r2)

/-- Group 1 of the collapse regex in `_clean_leader`:
`"Exploding Rage"\s*Category\s+Ki\s*\+\d+\s+and\s+HP,\s*ATK\s*&\s*DEF\s*\+\d+%`
matched with `re.IGNORECASE`. -/
def explodingRageToks : List Tok :=
  [.litCI ('"' :: "Exploding Rage".toList ++ ['"']), .ws0,
   .litCI "Category".toList, .cls1 isPySpace,
   .litCI "Ki".toList, .ws0, .litCI "+".toList, .cls1 isAsciiDigit,
   .cls1 isPySpace, .litCI "and".toList, .cls1 isPySpace,
   .litCI "HP,".toList, .ws0, .litCI "ATK".toList, .ws0,
   .litCI "&".toList, .ws0, .litCI "DEF".toList, .ws0,
   .litCI "+".toList, .cls1 isAsciiDigit, .litCI "%".toList]

/-- Try the whole collapse pattern `(P)\s*\1` at the current position; on
success return (group 1, rest after the match).  The back-reference `\1`
matches case-insensitively under `re.IGNORECASE`, as in Python. -/
def matchExplodingRage (s : List Char) : Option (List Char × List Char) :=
  match matchToks explodingRageToks s with
  | none => none
  | some (g, r1) =>
    match matchLitCI g (r1.dropWhile isPySpace) with
    | none => none
    | some (_, r2) => some (g, r2)

/-- Fuel-bounded scanner for the `re.sub` collapse: at each position try
the pattern; on a match, emit group 1 and resume after the matched text,
otherwise copy one character and move on.  One unit of fuel is spent per
scan step; `collapse_exploding_rage` supplies the input length as fuel,
which suffices because every match consumes at least one character. -/
def collapse_er_go : Nat → List Char → List Char
  | _, [] => []
  | 0, s => s
  | fuel + 1, c :: rest =>
    match matchExplodingRage (c :: rest) with
    | some (g, r) => g ++ collapse_er_go fuel r
    | none => c :: collapse_er_go fuel rest

/-- The `re.sub` collapse in `_clean_leader` (both variants): scan left to
right, replacing every non-overlapping match of `(P)\s*\1` with the
captured group `P`, resuming after the replaced text. -/
def collapse_exploding_rage (s : List Char) : List Char := collapse_er_go s.length s

/-- `_clean_leader(content_block)` of dokkaninfoBS4scraper.py (lines
197–208): join ALL content lines with spaces, condense whitespace,
sentence-deduplicate, collapse the doubled "Exploding Rage" pattern;
an empty result becomes `None` (`return leader_text or None`). -/
def clean_leader_bs4 (content_block : List (List Char)) : Option (List Char) :=
  if content_block = [] then none
  else
    let t1 := condense_spaces (joinSp content_block)
    let t2 := dedup_sentences t1
    let t3 := collapse_exploding_rage t2
    if t3 = [] then none else some t3

/-- `_clean_leader(content_block)` of scraper.py (lines 174–192): strip the
FIRST content line only, split it on `(?<=[.])\s+`, de-duplicate the
sentences keeping first occurrences, re-join with single spaces, collapse
the doubled "Exploding Rage" pattern, and return the (possibly empty)
string. -/
def clean_leader_scraper (content_block : List (List Char)) : Option (List Char) :=
  match content_block with
  | [] => none
  | first :: _ =>
    let lt := pyStrip first
    let parts := dedup_seen [] (((re_split_after isDotEnd lt []).map pyStrip).filter
      (fun p => !p.isEmpty))
    some (collapse_exploding_rage (joinSp parts))

/-! ### Text segmentation (`_split_sections`) and Python dictionaries -/

/-- `SECTION_HEADERS` of dokkaninfoBS4scraper.py (lines 36–47). -/
def section_headers_bs4 : List (List Char) :=
  ["Leader Skill".toList, "Super Attack".toList, "Ultra Super Attack".toList,
   "Passive Skill".toList, "Active Skill".toList, "Activation Condition(s)".toList,
   "Transformation Condition(s)".toList, "Link Skills".toList, "Categories".toList,
   "Stats".toList]

/-- `SECTION_HEADERS` of scraper.py (lines 39–49): same list without the
transformation-conditions entry. -/
def section_headers_scraper : List (List Char) :=
  ["Leader Skill".toList, "Super Attack".toList, "Ultra Super Attack".toList,
   "Passive Skill".toList, "Active Skill".toList, "Activation Condition(s)".toList,
   "Link Skills".toList, "Categories".toList, "Stats".toList]

/-- Python `dict` assignment `d[k] = v` on an insertion-ordered mapping:
replace the value in place when the key exists, append otherwise. -/
def dict_insert {κ α : Type} [DecidableEq κ] (k : κ) (v : α) :
    List (κ × α) → List (κ × α)
  | [] => [(k, v)]
  | (k', v') :: rest => if k' = k then (k, v) :: rest else (k', v') :: dict_insert k v rest

/-- Python `d.get(k)` / `d[k]` lookup. -/
def dict_get {κ α : Type} [DecidableEq κ] (k : κ) : List (κ × α) → Option α
  | [] => none
  | (k', v') :: rest => if k' = k then some v' else dict_get k rest

/-- The `(header, line-index)` occurrence list collected by
`_split_sections` (both variants). -/
def header_indices (headers : List (List Char)) (text_lines : List (List Char)) :
    List (List Char × Nat) :=
  (text_lines.enum.filter (fun p => p.2 ∈ headers)).map (fun p => (p.2, p.1))

/-- `text_lines[start_index + 1 : end_index]` with empty lines dropped. -/
def content_block (text_lines : List (List Char)) (start stop : Nat) : List (List Char) :=
  ((text_lines.take stop).drop (start + 1)).filter (fun l => !l.isEmpty)

/-- The `(header name, content block)` pair produced for each header
occurrence by the `_split_sections` loop: a section's content runs to the
next recognized header occurrence, or to the end of the text. -/
def section_pairs (text_lines : List (List Char)) :
    List (List Char × Nat) → List (List Char × List (List Char))
  | [] => []
  | (h, start) :: rest =>
    let stop := match rest with
      | [] => text_lines.length
      | (_, next) :: _ => next
    (h, content_block text_lines start stop) :: section_pairs text_lines rest

/-- `_split_sections(page_text)` (identical in both scraper variants up to
the header list): whitespace-condense each line, collect header
occurrences, and assign each occurrence's content block into a Python dict
keyed by the header name (later occurrences overwrite earlier ones).  The
page text is modelled by its line list (`page_text.splitlines()`). -/
def split_sections (headers : List (List Char)) (page_lines : List (List Char)) :
    List (List Char × List (List Char)) :=
  let text_lines := page_lines.map condense_spaces
  (section_pairs text_lines (header_indices headers text_lines)).foldl
    (fun d p => dict_insert p.1 p.2 d) []

/-! ### Link-skill, category and domain de-duplication -/

/-- Loop of `_clean_links(content_block)` (dokkaninfoBS4scraper.py lines
323–332): whitespace-condense each line, skip empties and repeats, keep
first occurrences in order. -/
def clean_links_go (seen : List (List Char)) : List (List Char) → List (List Char)
  | [] => []
  | line :: rest =>
    let cleaned := condense_spaces line
    if cleaned = [] ∨ cleaned ∈ seen then clean_links_go seen rest
    else cleaned :: clean_links_go (cleaned :: seen) rest

/-- `_clean_links(content_block)`. -/
def clean_links (content_block : List (List Char)) : List (List Char) :=
  clean_links_go [] content_block

/-- `CATEGORY_FILTER_TOKENS` of dokkaninfoBS4scraper.py (lines 49–52). -/
def category_filter_tokens : List (List Char) :=
  ["background".toList, "icon".toList, "rarity".toList, "element".toList,
   "eza".toList, "undefined".toList, "venatus".toList, "show more".toList,
   "links".toList, "categories".toList]

/-- `FILE_EXTENSION_PATTERN.search(s)` — `\.(png|jpg|jpeg|gif|webp)$` with
`re.IGNORECASE` — is a case-insensitive suffix test. -/
def has_file_extension (s : List Char) : Bool :=
  [".png", ".jpg", ".jpeg", ".gif", ".webp"].any
    (fun ext => ext.toList.isSuffixOf (s.map Char.toLower))

/-- Characters stripped by `category.strip("•· ")`. -/
def isBulletOrSpace (c : Char) : Bool := c = '•' || c = '·' || c = ' '

/-- Python `s.strip("•· ")`. -/
def strip_bullets (s : List Char) : List Char :=
  ((s.dropWhile isBulletOrSpace).reverse.dropWhile isBulletOrSpace).reverse

/-- `re.fullmatch(r"[\d\s%:]+", category)`: non-empty and made only of
digits, whitespace, `%` and `:`. -/
def is_numericish (s : List Char) : Bool :=
  !s.isEmpty && s.all (fun c => isAsciiDigit c || isPySpace c || c = '%' || c = ':')

/-- Scan for `sub` at every suffix position of the text. -/
def containsSubGo (sub : List Char) : List Char → Bool
  | [] => sub.isEmpty
  | c :: rest => sub.isPrefixOf (c :: rest) || containsSubGo sub rest

/-- Python substring test `sub in s`. -/
def containsSub (s sub : List Char) : Bool := containsSubGo sub s

/-- Loop of `_clean_categories_python(categories)` (dokkaninfoBS4scraper.py
lines 435–455): strip whitespace and bullets, apply the noise filters, and
keep the first occurrence of each surviving category. -/
def clean_categories_go (seen : List (List Char)) : List (List Char) → List (List Char)
  | [] => []
  | cat :: rest =>
    let c := strip_bullets (pyStrip cat)
    if c = [] then clean_categories_go seen rest
    else if c.map Char.toLower ∈ category_filter_tokens then clean_categories_go seen rest
    else if has_file_extension c then clean_categories_go seen rest
    else if is_numericish c then clean_categories_go seen rest
    else if c ∈ section_headers_bs4 ∨ containsSub c "Links:".toList
        ∨ containsSub c "Show More".toList then clean_categories_go seen rest
    else if c ∈ seen then clean_categories_go seen rest
    else c :: clean_categories_go (c :: seen) rest

/-- `_clean_categories_python(categories)`. -/
def clean_categories_python (categories : List (List Char)) : List (List Char) :=
  clean_categories_go [] categories

/-- One parsed domain block of `parse_domains`: name, effect and type, each
possibly absent. -/
structure Domain where
  name : Option (List Char)
  effect : Option (List Char)
  type : Option (List Char)
deriving DecidableEq

/-- The de-duplication key of `parse_domains`:
`(domain.get("name") or "", domain.get("effect") or "")`. -/
def domain_key (d : Domain) : List Char × List Char :=
  (d.name.getD [], d.effect.getD [])

/-- The final de-duplication pass of `parse_domains` (dokkaninfoBS4scraper.py
lines 604–612) over the collected `domains_list`. -/
def dedup_domains_go (seen : List (List Char × List Char)) : List Domain → List Domain
  | [] => []
  | d :: rest =>
    if domain_key d ∈ seen then dedup_domains_go seen rest
    else d :: dedup_domains_go (domain_key d :: seen) rest

/-- The `unique_domains` result of `parse_domains`. -/
def dedup_domains (domains_list : List Domain) : List Domain :=
  dedup_domains_go [] domains_list

/-! ### Stats extraction (`parse_stats_from_soup`) and percentage
bucketing (`format_stats_by_percentage`) -/

/-- Value of a non-empty all-digit numeral. -/
def digitsToNat : List Char → Option Nat
  | [] => none
  | ds =>
    if ds.all isAsciiDigit then
      some (ds.foldl (fun n c => n * 10 + (c.toNat - '0'.toNat)) 0)
    else none

/-- Python `int(s)`: optional surrounding whitespace, optional sign, one or
more decimal digits. -/
def pyInt (s : List Char) : Option Int :=
  match pyStrip s with
  | '+' :: ds => (digitsToNat ds).map (fun n => (n : Int))
  | '-' :: ds => (digitsToNat ds).map (fun n => -(n : Int))
  | ds => (digitsToNat ds).map (fun n => (n : Int))

/-- A located stats table: the header-row cell texts and the body rows'
cell texts, each cell already flattened by `get_text(strip=True)`. -/
structure StatsTable where
  headers : List (List Char)
  rows : List (List (List Char))

/-- A value of the Python stats dict: a labeled integer (`Cost`, `Max Lv`,
`SA Lv`) or a per-stat column table (`HP`/`ATK`/`DEF`). -/
inductive StatEntry where
  | int (n : Int)
  | table (d : List (List Char × Int))
deriving DecidableEq

/-- The inner cell loop of `parse_stats_from_soup` (lines 409–417):
`for i, cell in enumerate(cells[1:], start=1): if i < len(headers):
stat_values[headers[i]] = int(cell_text.replace(",", ""))`, skipping cells
whose text does not parse as an integer. -/
def stat_values_go (headers : List (List Char)) :
    List (List Char) → Nat → List (List Char × Int) → List (List Char × Int)
  | [], _, acc => acc
  | cell :: rest, i, acc =>
    if i < headers.length then
      match pyInt (cell.filter (fun c => c ≠ ',')) with
      | some n => stat_values_go headers rest (i + 1) (dict_insert (headers.getD i []) n acc)
      | none => stat_values_go headers rest (i + 1) acc
    else stat_values_go headers rest (i + 1) acc

/-- The row loop of `parse_stats_from_soup` (lines 399–421): keep rows with
at least two cells whose first cell is HP, ATK or DEF; pair the remaining
cells positionally with the header labels. -/
def parse_stats_rows (headers : List (List Char)) :
    List (List (List Char)) → List (List Char × StatEntry) → List (List Char × StatEntry)
  | [], dict => dict
  | cells :: more, dict =>
    if cells.length < 2 then parse_stats_rows headers more dict
    else
      let stat_name := cells.headD []
      if stat_name ∈ (["HP".toList, "ATK".toList, "DEF".toList] : List (List Char)) then
        let stat_values := stat_values_go headers cells.tail 1 []
        if stat_values = [] then parse_stats_rows headers more dict
        else parse_stats_rows headers more (dict_insert stat_name (.table stat_values) dict)
      else parse_stats_rows headers more dict

/-- Python word character (ASCII `\w`). -/
def isWordChar (c : Char) : Bool :=
  ('a' ≤ c && c ≤ 'z') || ('A' ≤ c && c ≤ 'Z') || isAsciiDigit c || c = '_'

/-- `re.search(r"\b<label>\s*:\s*(\d+)", page_text, re.IGNORECASE)`: find
the leftmost word-boundary position where the label, optional whitespace,
a colon, optional whitespace and digits follow; return the digits'
value. -/
def search_labeled_int_go (label : List Tok) (prevIsWord : Bool) :
    List Char → Option Nat
  | [] => none
  | c :: rest =>
    (if prevIsWord then none
     else
       match matchToks (label ++ [Tok.ws0, Tok.lit [':'], Tok.ws0]) (c :: rest) with
       | none => none
       | some (_, r1) =>
         match matchTok (Tok.cls1 isAsciiDigit) r1 with
         | none => none
         | some (digits, _) => digitsToNat digits) <|>
    search_labeled_int_go label (isWordChar c) rest

/-- Leftmost labeled-integer search over the whole page text. -/
def search_labeled_int (label : List Tok) (page_text : List Char) : Option Nat :=
  search_labeled_int_go label false page_text

/-- `\bCost\s*:\s*(\d+)` label tokens. -/
def cost_label : List Tok := [.litCI "Cost".toList]

/-- `\bMax\s*Lv\s*:\s*(\d+)` label tokens. -/
def max_lv_label : List Tok := [.litCI "Max".toList, .ws0, .litCI "Lv".toList]

/-- `\bSA\s*Lv\s*:\s*(\d+)` label tokens. -/
def sa_lv_label : List Tok := [.litCI "SA".toList, .ws0, .litCI "Lv".toList]

/-- `parse_stats_from_soup(soup, page_text)` (dokkaninfoBS4scraper.py lines
365–423).  The DOM search locating the stats table (lines 380–391) is
abstracted to the located table itself (`none` when no table is found);
`Cost` / `Max Lv` / `SA Lv` come from the labeled-integer regexes over the
flattened page text. -/
def parse_stats_from_soup (page_text : List Char) (stats_table : Option StatsTable) :
    List (List Char × StatEntry) :=
  let d0 : List (List Char × StatEntry) := []
  let d1 := match search_labeled_int cost_label page_text with
    | some n => dict_insert "Cost".toList (StatEntry.int n) d0
    | none => d0
  let d2 := match search_labeled_int max_lv_label page_text with
    | some n => dict_insert "Max Lv".toList (StatEntry.int n) d1
    | none => d1
  let d3 := match search_labeled_int sa_lv_label page_text with
    | some n => dict_insert "SA Lv".toList (StatEntry.int n) d2
    | none => d2
  match stats_table with
  | none => d3
  | some t => parse_stats_rows t.headers t.rows d3

/-- Python truthiness of a stats-dict value. -/
def entry_truthy : StatEntry → Bool
  | .int n => n ≠ 0
  | .table d => !d.isEmpty

/-- Python `isinstance(v, dict)` for a stats-dict value. -/
def entry_is_dict : StatEntry → Bool
  | .int _ => false
  | .table _ => true

/-- The column table of a stats-dict value (empty for integers). -/
def entry_table : StatEntry → List (List Char × Int)
  | .int _ => []
  | .table d => d

/-- Python simple positive `float(s)` numeral: digits with an optional
fractional part, valued exactly as a rational. -/
def pyFloatPos (ds : List Char) : Option ℚ :=
  let ip := ds.takeWhile isAsciiDigit
  let rest := ds.dropWhile isAsciiDigit
  match rest with
  | [] => if ip = [] then none else (digitsToNat ip).map (fun n => (n : ℚ))
  | '.' :: frac =>
    if frac.all isAsciiDigit && !(ip = [] && frac = []) then
      some (((digitsToNat ip).getD 0 : ℚ) +
        ((digitsToNat frac).getD 0 : ℚ) / (10 : ℚ) ^ frac.length)
    else none
  | _ => none

/-- Python `float(s)` with optional surrounding whitespace and sign. -/
def pyFloat (s : List Char) : Option ℚ :=
  match pyStrip s with
  | '+' :: ds => pyFloatPos ds
  | '-' :: ds => (pyFloatPos ds).map Neg.neg
  | ds => pyFloatPos ds

/-- The sort key `float(str(x).replace("%", ""))` of
`format_stats_by_percentage`.  A label that does not parse as a float would
raise `ValueError` in the source; the model orders such labels by key 0. -/
def percent_key (p : List Char) : ℚ := (pyFloat (p.filter (fun c => c ≠ '%'))).getD 0

/-- Stable insertion step for `sorted(xs, key=…)`. -/
def sorted_by_key_insert (key : List Char → ℚ) (x : List Char) :
    List (List Char) → List (List Char)
  | [] => [x]
  | y :: rest =>
    if key x ≤ key y then x :: y :: rest else y :: sorted_by_key_insert key x rest

/-- Python's stable `sorted(xs, key=…)`. -/
def sorted_by_key (key : List Char → ℚ) (xs : List (List Char)) : List (List Char) :=
  xs.foldr (sorted_by_key_insert key) []

/-- `percentage.replace('%', '_percent')`. -/
def replace_percent : List Char → List Char
  | [] => []
  | c :: rest =>
    if c = '%' then "_percent".toList ++ replace_percent rest
    else c :: replace_percent rest

/-- A value of the formatted stats structure. -/
inductive OutEntry where
  | info (d : List (List Char × StatEntry))
  | nested (d : List (List Char × List (List Char × Int)))
  | flat (d : List (List Char × Int))
deriving DecidableEq

/-- `format_stats_by_percentage(stats)` (dokkaninfoBS4scraper.py lines
725–791): split the raw stats dict into `general_info`, a `base_stats`
bucket over the Base Min / Base Max columns, and one
`hidden_potential_<label>` bucket per percentage column, the percentage
buckets ordered numerically by the percentage value. -/
def format_stats_by_percentage (stats : List (List Char × StatEntry)) :
    List (List Char × OutEntry) :=
  if stats = [] then []
  else
    let base_info := (["Cost".toList, "Max Lv".toList, "SA Lv".toList]).foldl
      (fun d key => match dict_get key stats with
        | some v => dict_insert key v d
        | none => d) []
    let hp_stats := (dict_get "HP".toList stats).getD (.table [])
    let atk_stats := (dict_get "ATK".toList stats).getD (.table [])
    let def_stats := (dict_get "DEF".toList stats).getD (.table [])
    if !entry_truthy hp_stats && !entry_truthy atk_stats && !entry_truthy def_stats then
      [("general_info".toList, OutEntry.info base_info)]
    else
      let all_percentages := dedup_seen []
        ([hp_stats, atk_stats, def_stats].foldl
          (fun ks e => if entry_is_dict e then ks ++ (entry_table e).map Prod.fst else ks) [])
      let percentage_columns := sorted_by_key percent_key
        (all_percentages.filter (fun p => p.contains '%'))
      let base_columns : List (List Char) := ["Base Min".toList, "Base Max".toList]
      let result : List (List Char × OutEntry) :=
        [("general_info".toList, OutEntry.info base_info)]
      let result :=
        if base_columns.any (fun col => col ∈ all_percentages) then
          let base_stats : List (List Char × List (List Char × Int)) := []
          let base_stats :=
            if entry_truthy hp_stats && entry_is_dict hp_stats then
              let hp_base := (entry_table hp_stats).filter (fun p => p.1 ∈ base_columns)
              if hp_base ≠ [] then dict_insert "HP".toList hp_base base_stats else base_stats
            else base_stats
          let base_stats :=
            if entry_truthy atk_stats && entry_is_dict atk_stats then
              let atk_base := (entry_table atk_stats).filter (fun p => p.1 ∈ base_columns)
              if atk_base ≠ [] then dict_insert "ATK".toList atk_base base_stats else base_stats
            else base_stats
          let base_stats :=
            if entry_truthy def_stats && entry_is_dict def_stats then
              let def_base := (entry_table def_stats).filter (fun p => p.1 ∈ base_columns)
              if def_base ≠ [] then dict_insert "DEF".toList def_base base_stats else base_stats
            else base_stats
          if base_stats ≠ [] then
            dict_insert "base_stats".toList (OutEntry.nested base_stats) result
          else result
        else result
      percentage_columns.foldl (fun res percentage =>
        let percentage_stats : List (List Char × Int) := []
        let percentage_stats :=
          if entry_truthy hp_stats && entry_is_dict hp_stats then
            match dict_get percentage (entry_table hp_stats) with
            | some v => dict_insert "HP".toList v percentage_stats
            | none => percentage_stats
          else percentage_stats
        let percentage_stats :=
          if entry_truthy atk_stats && entry_is_dict atk_stats then
            match dict_get percentage (entry_table atk_stats) with
            | some v => dict_insert "ATK".toList v percentage_stats
            | none => percentage_stats
          else percentage_stats
        let percentage_stats :=
          if entry_truthy def_stats && entry_is_dict def_stats then
            match dict_get percentage (entry_table def_stats) with
            | some v => dict_insert "DEF".toList v percentage_stats
            | none => percentage_stats
          else percentage_stats
        if percentage_stats ≠ [] then
          dict_insert ("hidden_potential_".toList ++ replace_percent percentage)
            (OutEntry.flat percentage_stats) res
        else res) result

/-- The synthetic stats table of the specification's example: header labels
["Stats","Base Min","Base Max","55%","100%"], one row `HP 100 200 150 300`. -/
def sample_stats_table : StatsTable :=
  ⟨["Stats".toList, "Base Min".toList, "Base Max".toList, "55%".toList, "100%".toList],
   [["HP".toList, "100".toList, "200".toList, "150".toList, "300".toList]]⟩

/-- The same synthetic table with the two percentage columns swapped
(column order 100% before 55%), for distinguishing numeric ordering from
table column order. -/
def sample_stats_table_swapped : StatsTable :=
  ⟨["Stats".toList, "Base Min".toList, "Base Max".toList, "100%".toList, "55%".toList],
   [["HP".toList, "100".toList, "200".toList, "300".toList, "150".toList]]⟩

/-! ### Asset-category classification (`extract_assets`, dokkan_api.py) -/

/-- The asset slots of `extract_assets` (dokkan_api.py lines 151–212). -/
structure Assets where
  rarity : Option (List Char)
  type : Option (List Char)
  background : Option (List Char)
  character : Option (List Char)
  effect : Option (List Char)
  cutin : Option (List Char)
deriving DecidableEq

/-- All slots initialised to `None`. -/
def Assets.initial : Assets := ⟨none, none, none, none, none, none⟩

/-- Python falsiness of a slot value (`not assets[key]`). -/
def slot_falsy : Option (List Char) → Bool
  | none => true
  | some s => s.isEmpty

/-- `url.lower()` (ASCII model). -/
def lowerStr (s : List Char) : List Char := s.map Char.toLower

/-- `"cha_rare_sm_" in url_lower or "cha_rare_" in url_lower`. -/
def m_rare (url : List Char) : Bool :=
  containsSub (lowerStr url) "cha_rare_sm_".toList ||
  containsSub (lowerStr url) "cha_rare_".toList

/-- `"cha_type_icon_" in url_lower`. -/
def m_type_icon (url : List Char) : Bool :=
  containsSub (lowerStr url) "cha_type_icon_".toList

/-- `character_id and character_id in url` (the raw URL, not lowered). -/
def m_id (character_id url : List Char) : Bool :=
  !character_id.isEmpty && containsSub url character_id

/-- `"/character/card/" in url_lower` (the fallback heuristic). -/
def m_fb (url : List Char) : Bool :=
  containsSub (lowerStr url) "/character/card/".toList

/-- `"_bg." in url_lower or "_bg.png" in url_lower`. -/
def m_bg (url : List Char) : Bool :=
  containsSub (lowerStr url) "_bg.".toList ||
  containsSub (lowerStr url) "_bg.png".toList

/-- `"_character." in url_lower or "_character.png" in url_lower`. -/
def m_character (url : List Char) : Bool :=
  containsSub (lowerStr url) "_character.".toList ||
  containsSub (lowerStr url) "_character.png".toList

/-- `"_effect." in url_lower or "_effect.png" in url_lower`. -/
def m_effect (url : List Char) : Bool :=
  containsSub (lowerStr url) "_effect.".toList ||
  containsSub (lowerStr url) "_effect.png".toList

/-- `"_cutin." in url_lower or "_cutin.png" in url_lower`. -/
def m_cutin (url : List Char) : Bool :=
  containsSub (lowerStr url) "_cutin.".toList ||
  containsSub (lowerStr url) "_cutin.png".toList

/-- One URL step of `extract_assets`: the `if`/`elif` classification chain
of dokkan_api.py lines 164–207.  Note that the character-id-qualified
branches assign unconditionally, while the rarity, type and fallback
branches only fill a falsy slot. -/
def extract_assets_step (character_id : List Char) (a : Assets) (url : List Char) : Assets :=
  if m_rare url then
    if slot_falsy a.rarity then { a with rarity := some url } else a
  else if m_type_icon url then
    if slot_falsy a.type then { a with type := some url } else a
  else if m_id character_id url then
    if m_bg url then { a with background := some url }
    else if m_character url then { a with character := some url }
    else if m_effect url then { a with effect := some url }
    else if m_cutin url then { a with cutin := some url }
    else a
  else if m_fb url then
    if m_character url && slot_falsy a.character then { a with character := some url }
    else if m_bg url && slot_falsy a.background then { a with background := some url }
    else if m_effect url && slot_falsy a.effect then { a with effect := some url }
    else if m_cutin url && slot_falsy a.cutin then { a with cutin := some url }
    else a
  else a

/-- `extract_assets(image_urls, character_id)` (dokkan_api.py lines
151–212). -/
def extract_assets (image_urls : List (List Char)) (character_id : List Char) : Assets :=
  image_urls.foldl (extract_assets_step character_id) Assets.initial

/-- The URLs taken by the rarity branch. -/
def rarity_branch (url : List Char) : Bool := m_rare url

/-- The URLs taken by the type-icon branch. -/
def type_branch (url : List Char) : Bool := !m_rare url && m_type_icon url

/-- The URLs taken by the id-qualified background branch. -/
def id_bg_branch (character_id url : List Char) : Bool :=
  !m_rare url && !m_type_icon url && m_id character_id url && m_bg url

/-- The URLs taken by the id-qualified character-art branch. -/
def id_char_branch (character_id url : List Char) : Bool :=
  !m_rare url && !m_type_icon url && m_id character_id url && !m_bg url && m_character url

/-- The URLs taken by the id-qualified effect-art branch. -/
def id_eff_branch (character_id url : List Char) : Bool :=
  !m_rare url && !m_type_icon url && m_id character_id url && !m_bg url &&
  !m_character url && m_effect url

/-- The URLs taken by the id-qualified cut-in branch. -/
def id_cut_branch (character_id url : List Char) : Bool :=
  !m_rare url && !m_type_icon url && m_id character_id url && !m_bg url &&
  !m_character url && !m_effect url && m_cutin url

/-! ### URL pagination (`build_next_index_url`) and the crawl frontier -/

/-- ASCII letter. -/
def isAsciiAlpha (c : Char) : Bool := ('a' ≤ c && c ≤ 'z') || ('A' ≤ c && c ≤ 'Z')

/-- ASCII hexadecimal digit. -/
def isHexDigit (c : Char) : Bool :=
  isAsciiDigit c || ('a' ≤ c && c ≤ 'f') || ('A' ≤ c && c ≤ 'F')

/-- Value of a hexadecimal digit. -/
def hexVal (c : Char) : Nat :=
  if isAsciiDigit c then c.toNat - '0'.toNat
  else if 'a' ≤ c && c ≤ 'f' then c.toNat - 'a'.toNat + 10
  else c.toNat - 'A'.toNat + 10

/-- `urllib` unquote-plus: `+` becomes a space and `%XX` hex escapes are
decoded (ASCII model). -/
def pct_decode : List Char → List Char
  | [] => []
  | '+' :: rest => ' ' :: pct_decode rest
  | '%' :: a :: b :: rest =>
    if isHexDigit a && isHexDigit b then
      Char.ofNat (hexVal a * 16 + hexVal b) :: pct_decode rest
    else '%' :: pct_decode (a :: b :: rest)
  | c :: rest => c :: pct_decode rest

/-- Characters `quote_plus` leaves unescaped. -/
def isQuoteSafe (c : Char) : Bool :=
  isAsciiAlpha c || isAsciiDigit c || c = '_' || c = '.' || c = '-' || c = '~'

/-- Upper-case hexadecimal digit of a value below 16. -/
def hexDigitUpper (n : Nat) : Char :=
  if n < 10 then Char.ofNat ('0'.toNat + n) else Char.ofNat ('A'.toNat + n - 10)

/-- `urllib` quote-plus: spaces become `+`, unsafe characters become `%XX`
(ASCII model). -/
def pct_encode : List Char → List Char
  | [] => []
  | c :: rest =>
    if isQuoteSafe c then c :: pct_encode rest
    else if c = ' ' then '+' :: pct_encode rest
    else '%' :: hexDigitUpper (c.toNat / 16) :: hexDigitUpper (c.toNat % 16) :: pct_encode rest

/-- Split a character list on every occurrence of a separator. -/
def splitOnCharGo (sep : Char) : List Char → List Char → List (List Char)
  | [], acc => [acc.reverse]
  | c :: rest, acc =>
    if c = sep then acc.reverse :: splitOnCharGo sep rest []
    else splitOnCharGo sep rest (c :: acc)

/-- `s.split(sep)`. -/
def splitOnChar (sep : Char) (s : List Char) : List (List Char) := splitOnCharGo sep s []

/-- `s.split(sep, 1)`: split at the first occurrence, `none` when absent. -/
def splitFirst (sep : Char) : List Char → Option (List Char × List Char)
  | [] => none
  | c :: rest =>
    if c = sep then some ([], rest)
    else (splitFirst sep rest).map (fun p => (c :: p.1, p.2))

/-- `urllib.parse.parse_qsl(qs, keep_blank_values=True)`: split on `&`,
drop empty chunks, split each chunk at its first `=` (a chunk without `=`
keeps a blank value), and unquote names and values. -/
def parse_qsl (qs : List Char) : List (List Char × List Char) :=
  (splitOnChar '&' qs).foldr (fun nv acc =>
    if nv = [] then acc
    else match splitFirst '=' nv with
      | some (n, v) => (pct_decode n, pct_decode v) :: acc
      | none => (pct_decode nv, pct_decode []) :: acc) []

/-- `dict(pairs)`: left-to-right insertion with overwrite. -/
def dict_of_pairs {κ α : Type} [DecidableEq κ] (ps : List (κ × α)) : List (κ × α) :=
  ps.foldl (fun d p => dict_insert p.1 p.2 d) []

/-- Join chunks with a separator character. -/
def joinWithChar (sep : Char) : List (List Char) → List Char
  | [] => []
  | [x] => x
  | x :: xs => x ++ sep :: joinWithChar sep xs

/-- `urllib.parse.urlencode(params, doseq=True)` on string-valued
parameters: `quote_plus(k)=quote_plus(v)` chunks joined with `&`. -/
def urlencode_pairs (ps : List (List Char × List Char)) : List Char :=
  joinWithChar '&' (ps.map (fun p => pct_encode p.1 ++ '=' :: pct_encode p.2))

/-- The six components of `urllib.parse.urlparse`. -/
structure UrlParts where
  scheme : List Char
  netloc : List Char
  path : List Char
  params : List Char
  query : List Char
  fragment : List Char
deriving DecidableEq

/-- A valid URL scheme prefix: a letter followed by letters, digits, `+`,
`-` or `.`. -/
def valid_scheme : List Char → Bool
  | [] => false
  | c :: rest =>
    isAsciiAlpha c &&
    rest.all (fun d => isAsciiAlpha d || isAsciiDigit d || d = '+' || d = '-' || d = '.')

/-- Index of the first occurrence of a character. -/
def firstIdxGo (c : Char) (i : Nat) : List Char → Option Nat
  | [] => none
  | d :: rest => if d = c then some i else firstIdxGo c (i + 1) rest

/-- Index of the first occurrence of a character. -/
def firstIdx (c : Char) (s : List Char) : Option Nat := firstIdxGo c 0 s

/-- Index of the last `/` of a path. -/
def lastSlashIdx (p : List Char) : Option Nat :=
  ((p.enum.filter (fun q => q.2 = '/')).getLast?).map Prod.fst

/-- Index of the first `;` at or after the last `/`. -/
def semiIdxAfterLastSlash (p : List Char) : Option Nat :=
  let start := (lastSlashIdx p).getD 0
  ((p.enum.filter (fun q => decide (q.1 ≥ start) && decide (q.2 = ';'))).head?).map Prod.fst

/-- `urllib.parse._splitparams`: split the `;params` suffix of the last
path segment. -/
def split_params (p : List Char) : List Char × List Char :=
  if p.contains '/' then
    match semiIdxAfterLastSlash p with
    | none => (p, [])
    | some i => (p.take i, p.drop (i + 1))
  else
    match firstIdx ';' p with
    | none => (p, [])
    | some i => (p.take i, p.drop (i + 1))

/-- The schemes for which `urlparse` splits `;params` (CPython's
`uses_params`). -/
def uses_params : List (List Char) :=
  [[], "ftp".toList, "hdl".toList, "prospero".toList, "http".toList, "imap".toList,
   "https".toList, "shttp".toList, "rtsp".toList, "rtspu".toList, "sip".toList,
   "sips".toList, "mms".toList, "sftp".toList, "tel".toList]

/-- `urllib.parse.urlparse(url)` (ASCII model): split off the scheme (when
its prefix is valid, lower-cased), the `//netloc` (up to the next `/`, `?`
or `#`), the `#fragment`, the `?query`, and the `;params` of the last path
segment for the schemes that use them. -/
def urlparse (url : List Char) : UrlParts :=
  let sr : List Char × List Char :=
    match splitFirst ':' url with
    | some (pre, post) => if valid_scheme pre then (lowerStr pre, post) else ([], url)
    | none => ([], url)
  let scheme := sr.1
  let nr : List Char × List Char :=
    match sr.2 with
    | '/' :: '/' :: r =>
      let nl := r.takeWhile (fun c => !(c = '/' || c = '?' || c = '#'))
      (nl, r.dropWhile (fun c => !(c = '/' || c = '?' || c = '#')))
    | rest => ([], rest)
  let fr : List Char × List Char :=
    match splitFirst '#' nr.2 with
    | some (a, b) => (a, b)
    | none => (nr.2, [])
  let qr : List Char × List Char :=
    match splitFirst '?' fr.1 with
    | some (a, b) => (a, b)
    | none => (fr.1, [])
  let pp : List Char × List Char :=
    if scheme ∈ uses_params && qr.1.contains ';' then split_params qr.1
    else (qr.1, [])
  ⟨scheme, nr.1, pp.1, pp.2, qr.2, fr.2⟩

/-- `urllib.parse.urlunsplit`. -/
def urlunsplit (scheme netloc url query fragment : List Char) : List Char :=
  let url :=
    if netloc ≠ [] || url.take 2 = ['/', '/'] then
      '/' :: '/' :: (netloc ++ (if url ≠ [] && !(url.headD ' ' = '/') then '/' :: url else url))
    else url
  let url := if scheme ≠ [] then scheme ++ ':' :: url else url
  let url := if query ≠ [] then url ++ '?' :: query else url
  if fragment ≠ [] then url ++ '#' :: fragment else url

/-- `urllib.parse.urlunparse`. -/
def urlunparse (p : UrlParts) : List Char :=
  let url := if p.params ≠ [] then p.path ++ ';' :: p.params else p.path
  urlunsplit p.scheme p.netloc url p.query p.fragment

/-- `str(i)` for the incremented page number. -/
def intToStr (i : Int) : List Char :=
  if i < 0 then '-' :: Nat.toDigits 10 i.natAbs else Nat.toDigits 10 i.natAbs

/-- `build_next_index_url(current_url)` (dokkaninfoBS4scraper.py lines
153–165): parse the URL, increment its `page` query parameter (defaulting
to `"2"` when absent or non-numeric), re-encode the query and reassemble
the URL. -/
def build_next_index_url (current_url : List Char) : List Char :=
  let parts := urlparse current_url
  let query_params := dict_of_pairs (parse_qsl parts.query)
  let query_params :=
    match dict_get "page".toList query_params with
    | none => dict_insert "page".toList "2".toList query_params
    | some v =>
      match pyInt v with
      | some n => dict_insert "page".toList (intToStr (n + 1)) query_params
      | none => dict_insert "page".toList "2".toList query_params
  urlunparse { parts with query := urlencode_pairs query_params }

/-- `MAX_PAGES_TO_SCRAPE` (dokkaninfoBS4scraper.py line 33). -/
def max_pages_to_scrape : Nat := 200

/-- `MAX_NEW_CARDS_TO_SAVE` (dokkaninfoBS4scraper.py line 34). -/
def max_new_cards_to_save : Nat := 10

/-- The loop state of main's crawl over index pages. -/
structure CrawlState where
  current_index_url : List Char
  pages_processed : Nat
  new_cards_saved : Nat
deriving DecidableEq

/-- Outcome of one crawl-loop iteration: terminate, or continue with a new
state. -/
inductive CrawlOutcome where
  | done
  | continue_with (s : CrawlState)
deriving DecidableEq

/-- One iteration of main's crawl loop (dokkaninfoBS4scraper.py lines
1197–1238) for an index page whose card-link container yields no links:
after the page-ceiling and new-card-quota guards, the loop computes the
next paginated URL, stops when it equals the current URL, and otherwise
advances to it. -/
def crawl_iteration_no_links (s : CrawlState) : CrawlOutcome :=
  if ¬(s.pages_processed < max_pages_to_scrape) then .done
  else if s.new_cards_saved ≥ max_new_cards_to_save then .done
  else
    let next_index_url := build_next_index_url s.current_index_url
    if next_index_url = s.current_index_url then .done
    else .continue_with { s with current_index_url := next_index_url,
                                 pages_processed := s.pages_processed + 1 }

/-! ### DOM model and EZA parsing (`parse_eza_info`) -/

/-- A minimal DOM tree: elements carry a tag, a class list and children;
leaves are text nodes. -/
inductive Node where
  | elem (tag : List Char) (classes : List (List Char)) (children : List Node)
  | text (s : List Char)

mutual

/-- The text fragments of a node, in document order. -/
def textFragments : Node → List (List Char)
  | .text s => [s]
  | .elem _ _ children => textFragmentsList children

/-- The text fragments of a forest, in document order. -/
def textFragmentsList : List Node → List (List Char)
  | [] => []
  | n :: rest => textFragments n ++ textFragmentsList rest

end

/-- BeautifulSoup `node.get_text()`: all text fragments concatenated. -/
def getText (n : Node) : List Char := (textFragments n).flatten

/-- `node.get_text(strip=True)`: fragments stripped, empties dropped,
concatenated. -/
def getTextStrip (n : Node) : List Char :=
  (((textFragments n).map pyStrip).filter (fun f => !f.isEmpty)).flatten

/-- `node.get_text(sep, strip=True)`: fragments stripped, empties dropped,
joined with the separator. -/
def getTextSepStrip (sep : Char) (n : Node) : List Char :=
  joinWithChar sep (((textFragments n).map pyStrip).filter (fun f => !f.isEmpty))

/-- The children of a node. -/
def childrenOf : Node → List Node
  | .elem _ _ cs => cs
  | .text _ => []

/-- The EZA toggle row: a `div` with class `row` whose text contains both
"PRE-EZA" and "EZA" (lines 626–629). -/
def is_eza_toggle_row (n : Node) : Bool :=
  match n with
  | .elem tag classes _ =>
    tag = "div".toList && decide ("row".toList ∈ classes) &&
    containsSub (getText n) "PRE-EZA".toList && containsSub (getText n) "EZA".toList
  | .text _ => false

/-- BeautifulSoup document-order (pre-order) search for the first node
satisfying a predicate, also returning its following siblings. -/
def find_with_siblings (p : Node → Bool) : List Node → Option (Node × List Node)
  | [] => none
  | n :: rest =>
    if p n then some (n, rest)
    else
      match n with
      | .elem _ _ children =>
        match find_with_siblings p children with
        | some r => some r
        | none => find_with_siblings p rest
      | .text _ => find_with_siblings p rest

/-- `find_next_sibling("div", class_="row")`: the first following sibling
that is a `div` with class `row`. -/
def find_next_sibling_row : List Node → Option Node
  | [] => none
  | n :: rest =>
    match n with
    | .elem tag classes _ =>
      if tag = "div".toList && decide ("row".toList ∈ classes) then some n
      else find_next_sibling_row rest
    | .text _ => find_next_sibling_row rest

/-- `step_row.find("span", class_="multiselect__single")`: the first
matching descendant in document order. -/
def find_span_ms : List Node → Option Node
  | [] => none
  | n :: rest =>
    match n with
    | .elem tag classes children =>
      if tag = "span".toList && decide ("multiselect__single".toList ∈ classes) then some n
      else
        match find_span_ms children with
        | some r => some r
        | none => find_span_ms rest
    | .text _ => find_span_ms rest

/-- The release-date section: a `div` whose text contains both
"Release Date" and "EZA Release Date" (lines 655–659). -/
def is_release_section_div (n : Node) : Bool :=
  match n with
  | .elem tag _ _ =>
    tag = "div".toList && containsSub (getText n) "Release Date".toList &&
    containsSub (getText n) "EZA Release Date".toList
  | .text _ => false

/-- Document-order search for the first node satisfying a predicate. -/
def find_first_node (p : Node → Bool) : List Node → Option Node
  | [] => none
  | n :: rest =>
    if p n then some n
    else
      match n with
      | .elem _ _ children =>
        match find_first_node p children with
        | some r => some r
        | none => find_first_node p rest
      | .text _ => find_first_node p rest

/-- `re.search` with a leading anchor part and a captured group: scan
positions left to right and return the group text of the leftmost match. -/
def search_capture (pre grp : List Tok) : List Char → Option (List Char)
  | [] => none
  | c :: rest =>
    (match matchToks pre (c :: rest) with
     | none => none
     | some (_, r1) =>
       match matchToks grp r1 with
       | some (g, _) => some g
       | none => none) <|>
    search_capture pre grp rest

/-- The captured group `\d+/\d+/\d+\s+\d+:\d+:\d+\s+[AP]M\s+[A-Z]+` of the
release-date regexes (lines 666 and 671). -/
def date_group : List Tok :=
  [.cls1 isAsciiDigit, .lit ['/'], .cls1 isAsciiDigit, .lit ['/'], .cls1 isAsciiDigit,
   .cls1 isPySpace, .cls1 isAsciiDigit, .lit [':'], .cls1 isAsciiDigit, .lit [':'],
   .cls1 isAsciiDigit, .cls1 isPySpace, .one (fun c => c = 'A' || c = 'P'), .lit ['M'],
   .cls1 isPySpace, .cls1 (fun c => 'A' ≤ c && c ≤ 'Z')]

/-- The anchor `Release Date\s+` of the release-date regex. -/
def release_date_pre : List Tok := [.lit "Release Date".toList, .cls1 isPySpace]

/-- The anchor `EZA Release Date\s+` of the EZA release-date regex. -/
def eza_release_date_pre : List Tok := [.lit "EZA Release Date".toList, .cls1 isPySpace]

/-- The result record of `parse_eza_info`. -/
structure EzaInfo where
  has_eza : Bool
  eza_step : Option Int
  is_seza : Bool
  release_date : Option (List Char)
  eza_release_date : Option (List Char)
deriving DecidableEq

/-- The initial `eza_info` dict (lines 616–622). -/
def eza_info_default : EzaInfo := ⟨false, none, false, none, none⟩

/-- `parse_eza_info(soup)` (dokkaninfoBS4scraper.py lines 614–675) over a
DOM forest: when no PRE-EZA/EZA toggle row exists, return the default
record; otherwise set `has_eza`, read the EZA step from the toggle's next
sibling row when it mentions "Step:" and carries a selected-value span with
integer text (step 4 means Super-EZA), and extract the two labeled release
dates from the section mentioning both labels. -/
def parse_eza_info (doc : List Node) : EzaInfo :=
  match find_with_siblings is_eza_toggle_row doc with
  | none => eza_info_default
  | some (_, siblings) =>
    let step_info : Option Int × Bool :=
      match find_next_sibling_row siblings with
      | some step_row =>
        if containsSub (getText step_row) "Step:".toList then
          match find_span_ms (childrenOf step_row) with
          | some span =>
            match pyInt (getTextStrip span) with
            | some n => (some n, decide (n = 4))
            | none => (none, false)
          | none => (none, false)
        else (none, false)
      | none => (none, false)
    let dates : Option (List Char) × Option (List Char) :=
      match find_first_node is_release_section_div doc with
      | some sect =>
        ((search_capture release_date_pre date_group (getTextSepStrip '\n' sect)).map pyStrip,
         (search_capture eza_release_date_pre date_group
           (getTextSepStrip '\n' sect)).map pyStrip)
      | none => (none, none)
    ⟨true, step_info.1, step_info.2, dates.1, dates.2⟩

/-- A sample PRE-EZA/EZA toggle row. -/
def sample_toggle_row : Node :=
  Node.elem "div".toList ["row".toList] [Node.text "PRE-EZA EZA".toList]

/-- A sample selected-value span reading "4". -/
def sample_step_span : Node :=
  Node.elem "span".toList ["multiselect__single".toList] [Node.text "4".toList]

/-- A sample "Step:" selector row containing the selected-value span. -/
def sample_step_row : Node :=
  Node.elem "div".toList ["row".toList] [Node.text "Step: ".toList, sample_step_span]

/-- A sample card DOM: the toggle row followed by the step row. -/
def sample_eza_doc : List Node := [sample_toggle_row, sample_step_row]

/-! ### Record assembly and the exception boundary (`scrape_card_from_html`) -/

/-- The outcome of one Python call: a returned value, or a raised exception
carrying its message. -/
abbrev PyResult (α : Type) : Type := Except (List Char) α

/-- Python truthiness of a call outcome: `true` iff the call returned a
value (no exception was raised). -/
def pyOk {α : Type} : PyResult α → Bool
  | .ok _ => true
  | .error _ => false

/-- The assembled card record of `scrape_card_from_html`: the extraction
fields of `metadata_dict` (dokkaninfoBS4scraper.py lines 1017–1048).  The
name/title/typing fields derived from the same soup (lines 985–1010) are
abstracted into `display`; passive sections are `(condition, effects)`
pairs; `release` is the `(release_date, timezone)` pair. -/
structure CardRecord where
  display : List Char
  leader_skill : Option (List Char)
  super_attack : Option (List Char) × Option (List Char)
  ultra_super_attack : Option (List Char) × Option (List Char)
  passive_skill : Option (List Char) × List (List Char × List (List Char))
  active_skill : Option (List Char) × Option (List Char) × Option (List Char)
  link_skills : List (List Char)
  categories : List (List Char)
  stats : List (List Char × StatEntry)
  release : Option (List Char) × Option (List Char)
  domains : List Domain
  eza_info : EzaInfo
  image_urls : List (List Char)

/-- The field-extractor call outcomes for one rendered card page, one per
extractor call site of `scrape_card_from_html` (lines 939–1015), in source
order: `_clean_leader`, `_clean_super_like` (twice, with their regex
fallbacks), `parse_passive_from_soup`, `_clean_active`/`_clean_activation`,
`_clean_links`, `parse_categories_from_soup`, `parse_stats_from_soup`,
`_parse_release`, the image-URL loop, the rarity/type/display-name
derivation, `parse_domains` and `parse_eza_info`.  Each call either returns
its value or raises. -/
structure Extractors where
  leader : PyResult (Option (List Char))
  super_attack : PyResult (Option (List Char) × Option (List Char))
  ultra_super_attack : PyResult (Option (List Char) × Option (List Char))
  passive : PyResult (Option (List Char) × List (List Char × List (List Char)))
  active : PyResult (Option (List Char) × Option (List Char) × Option (List Char))
  links : PyResult (List (List Char))
  categories : PyResult (List (List Char))
  stats : PyResult (List (List Char × StatEntry))
  release : PyResult (Option (List Char) × Option (List Char))
  images : PyResult (List (List Char))
  naming : PyResult (List Char)
  domains : PyResult (List Domain)
  eza : PyResult EzaInfo

/-- `scrape_card_from_html(page_html, page_url)` (dokkaninfoBS4scraper.py
lines 933–1049) at the record-assembly boundary: the function body is a
straight-line sequence of field-extractor calls with no `try`/`except`
anywhere in the function, followed by the construction of `metadata_dict`.
In the exception monad each call is therefore a bind, and a raised
exception propagates out of the function. -/
def scrape_card_from_html (ex : Extractors) : PyResult CardRecord := do
  let leader ← ex.leader
  let superA ← ex.super_attack
  let ultraA ← ex.ultra_super_attack
  let passiveV ← ex.passive
  let activeV ← ex.active
  let linksV ← ex.links
  let cats ← ex.categories
  let statsV ← ex.stats
  let rel ← ex.release
  let imgs ← ex.images
  let disp ← ex.naming
  let doms ← ex.domains
  let ezaV ← ex.eza
  Except.ok ⟨disp, leader, superA, ultraA, passiveV, activeV, linksV, cats,
             statsV, rel, doms, ezaV, imgs⟩

/-- A page on which a single field extractor — `parse_stats_from_soup` —
raises (e.g. `int()` on a malformed cell) while every other extractor
returns its default/absent value. -/
def sample_failing_extractors : Extractors :=
  ⟨Except.ok none, Except.ok (none, none), Except.ok (none, none),
   Except.ok (none, []), Except.ok (none, none, none), Except.ok [],
   Except.ok [], Except.error "ValueError".toList, Except.ok (none, none),
   Except.ok [], Except.ok [], Except.ok [], Except.ok eza_info_default⟩

/-! ### Index persistence (`save_index`) -/

/-- A file-system operation performed while persisting the index. -/
inductive FsOp where
  | mkdir (path : List Char)
  | write_file (path : List Char) (content : List Char)
  | rename (src dst : List Char)
deriving DecidableEq

/-- `INDEX_FILE_PATH` (dokkaninfoBS4scraper.py lines 19–21):
`output/cards/CARDS_INDEX.json`. -/
def index_file_path : List Char := "output/cards/CARDS_INDEX.json".toList

/-- The parent directory of the index file (`INDEX_FILE_PATH.parent`). -/
def index_parent_dir : List Char := "output/cards".toList

/-- `save_index(index_data)` (dokkaninfoBS4scraper.py lines 94–96) as the
sequence of file-system operations it performs: `mkdir(parents=True,
exist_ok=True)` on the parent directory, then one direct `write_text` of
the serialized index to `INDEX_FILE_PATH`.  The JSON serialization of the
index mapping is abstracted as `serialized`.  This is the persistence step
of the upsert in `write_card_outputs_and_update_index` (lines 1151–1169),
which mutates `index_data[character_id]` in memory and then calls
`save_index(index_data)`. -/
def save_index_trace (serialized : List Char) : List FsOp :=
  [FsOp.mkdir index_parent_dir, FsOp.write_file index_file_path serialized]

/-- The write-to-temp-then-replace discipline asserted by the claim, as a
predicate on an operation trace.  (This definition follows the claim's
wording — it is the specification side of the comparison, to be checked
against the trace the code produces.)  It requires that no operation writes
the final path directly, and that some temporary path different from the
final path is written and then renamed onto the final path. -/
def atomic_replace_discipline (trace : List FsOp) (final_path : List Char) : Prop :=
  (∀ op ∈ trace, ∀ content, op ≠ FsOp.write_file final_path content) ∧
  ∃ tmp, tmp ≠ final_path ∧ (∃ content, FsOp.write_file tmp content ∈ trace) ∧
    FsOp.rename tmp final_path ∈ trace

/-! ### Generic facts about the seen-set de-duplication loop -/

theorem dedup_seen_sublist {α : Type} [DecidableEq α] :
    ∀ (l seen : List α), (dedup_seen seen l).Sublist l := by
  intro l
  induction l with
  | nil => intro _; simp [dedup_seen]
  | cons x xs ih =>
    intro seen
    rw [dedup_seen]
    by_cases hx : x ∈ seen
    · rw [if_pos hx]
      exact (ih seen).cons x
    · rw [if_neg hx]
      exact (ih (x :: seen)).cons₂ x

theorem mem_dedup_seen {α : Type} [DecidableEq α] :
    ∀ (l seen : List α) (x : α), x ∈ dedup_seen seen l → x ∈ l ∧ x ∉ seen := by
  intro l
  induction l with
  | nil => intro seen x hx; simp [dedup_seen] at hx
  | cons y ys ih =>
    intro seen x hx
    rw [dedup_seen] at hx
    by_cases hy : y ∈ seen
    · rw [if_pos hy] at hx
      rcases ih seen x hx with ⟨h1, h2⟩
      exact ⟨List.mem_cons_of_mem _ h1, h2⟩
    · rw [if_neg hy] at hx
      rcases List.mem_cons.mp hx with rfl | hx'
      · exact ⟨List.mem_cons_self _ _, hy⟩
      · rcases ih (y :: seen) x hx' with ⟨h1, h2⟩
        exact ⟨List.mem_cons_of_mem _ h1, fun hc => h2 (List.mem_cons_of_mem _ hc)⟩

theorem dedup_seen_nodup {α : Type} [DecidableEq α] :
    ∀ (l seen : List α), (dedup_seen seen l).Nodup := by
  intro l
  induction l with
  | nil => intro _; simp [dedup_seen]
  | cons x xs ih =>
    intro seen
    rw [dedup_seen]
    by_cases hx : x ∈ seen
    · rw [if_pos hx]; exact ih seen
    · rw [if_neg hx]
      refine List.nodup_cons.mpr ⟨?_, ih (x :: seen)⟩
      intro hc
      exact (mem_dedup_seen xs (x :: seen) x hc).2 (List.mem_cons_self _ _)

theorem dedup_seen_eq_self {α : Type} [DecidableEq α] :
    ∀ (l seen : List α), l.Nodup → (∀ x ∈ l, x ∉ seen) → dedup_seen seen l = l := by
  intro l
  induction l with
  | nil => intro _ _ _; rfl
  | cons x xs ih =>
    intro seen hnd hdisj
    rw [dedup_seen, if_neg (hdisj x (List.mem_cons_self _ _))]
    rcases List.nodup_cons.mp hnd with ⟨hx, hnd'⟩
    refine congrArg (x :: ·) (ih (x :: seen) hnd' ?_)
    intro y hy
    intro hc
    rcases List.mem_cons.mp hc with rfl | hc'
    · exact hx hy
    · exact hdisj y (List.mem_cons_of_mem _ hy) hc'

/-! ### Facts about whitespace stripping and head/last characters -/

theorem headIsSpace_append (a b : List Char) (ha : a ≠ []) :
    headIsSpace (a ++ b) = headIsSpace a := by
  cases a with
  | nil => exact absurd rfl ha
  | cons c rest => rfl

theorem dropWhile_eq_self_of_headIsSpace_false (l : List Char)
    (h : headIsSpace l = false) : l.dropWhile isPySpace = l := by
  cases l with
  | nil => rfl
  | cons c rest =>
    simp only [headIsSpace] at h
    simp [List.dropWhile_cons, h]

theorem headIsSpace_dropWhile (l : List Char) :
    headIsSpace (l.dropWhile isPySpace) = false := by
  induction l with
  | nil => rfl
  | cons c rest ih =>
    by_cases hc : isPySpace c
    · simpa [List.dropWhile_cons, hc] using ih
    · simp only [List.dropWhile_cons]
      simp only [hc, Bool.false_eq_true, if_false]
      simp [headIsSpace, hc]

theorem pyStripEnd_isPrefix (l : List Char) : (pyStripEnd l).IsPrefix l := by
  rcases List.dropWhile_suffix (l := l.reverse) isPySpace with ⟨t, ht⟩
  refine ⟨t.reverse, ?_⟩
  have h2 : (t ++ l.reverse.dropWhile isPySpace).reverse = l.reverse.reverse := by rw [ht]
  rw [List.reverse_append, List.reverse_reverse] at h2
  simpa [pyStripEnd] using h2

theorem headIsSpace_pyStripEnd (l : List Char) (h : headIsSpace l = false) :
    headIsSpace (pyStripEnd l) = false := by
  rcases eq_or_ne (pyStripEnd l) [] with he | hne
  · rw [he]; rfl
  · rcases pyStripEnd_isPrefix l with ⟨t, ht⟩
    rw [← ht, headIsSpace_append _ _ hne] at h
    exact h

theorem headIsSpace_reverse_pyStripEnd (l : List Char) :
    headIsSpace (pyStripEnd l).reverse = false := by
  simp only [pyStripEnd, List.reverse_reverse]
  exact headIsSpace_dropWhile _

theorem headIsSpace_pyStrip (l : List Char) : headIsSpace (pyStrip l) = false :=
  headIsSpace_pyStripEnd _ (headIsSpace_dropWhile l)

theorem headIsSpace_reverse_pyStrip (l : List Char) :
    headIsSpace (pyStrip l).reverse = false :=
  headIsSpace_reverse_pyStripEnd _

theorem pyStrip_eq_self (l : List Char) (h1 : headIsSpace l = false)
    (h2 : headIsSpace l.reverse = false) : pyStrip l = l := by
  rw [pyStrip, dropWhile_eq_self_of_headIsSpace_false l h1, pyStripEnd,
    dropWhile_eq_self_of_headIsSpace_false _ h2, List.reverse_reverse]

theorem pyStrip_isInfix (l : List Char) : (pyStrip l).IsInfix l := by
  rcases List.dropWhile_suffix (l := l) isPySpace with ⟨u, hu⟩
  rcases pyStripEnd_isPrefix (l.dropWhile isPySpace) with ⟨v, hv⟩
  refine ⟨u, v, ?_⟩
  simp only [pyStrip]
  rw [List.append_assoc, hv, hu]

/-! ### Structure of the output of `re_split_after` -/

theorem chain'_of_sublist_fstProp {α : Type} {Q : α → Prop} :
    ∀ {T S : List α}, T.Sublist S → List.Chain' (fun a _ => Q a) S →
      List.Chain' (fun a _ => Q a) T := by
  intro T S hsub
  induction hsub with
  | slnil => exact id
  | cons a _ ih => intro h; exact ih h.tail
  | @cons₂ T' S' a hsub ih =>
    intro h
    rw [List.chain'_cons']
    refine ⟨?_, ih h.tail⟩
    intro y hy
    have hT : T' ≠ [] := by
      intro he; rw [he] at hy; simp at hy
    have hS : S' ≠ [] := by
      intro he; rw [he] at hsub; exact hT (List.sublist_nil.mp hsub)
    rcases List.exists_cons_of_ne_nil hS with ⟨z, zs, rfl⟩
    exact (List.chain'_cons'.mp h).1 z rfl

theorem re_split_after_noFire (e : Char → Bool) :
    ∀ (l acc : List Char), List.Chain' (noBreakR e) l →
      re_split_after e l acc = [acc.reverse ++ l] := by
  intro l
  induction l with
  | nil => intro acc _; simp [re_split_after]
  | cons c rest ih =>
    intro acc h
    rw [re_split_after]
    have hguard : (e c && headIsSpace rest) = false := by
      cases rest with
      | nil => simp [headIsSpace]
      | cons d rs =>
        rcases List.chain'_cons.mp h with ⟨hR, _⟩
        simp only [headIsSpace]
        cases hec : e c with
        | false => simp
        | true =>
          cases hsp : isPySpace d with
          | false => simp
          | true => exact absurd ⟨hec, hsp⟩ hR
    rw [if_neg (by rw [hguard]; exact Bool.false_ne_true)]
    rw [ih (c :: acc) h.tail]
    simp

theorem re_split_after_boundary (e : Char → Bool) :
    ∀ (part acc s : List Char), part ≠ [] →
      List.Chain' (noBreakR e) part →
      endsTerm e part →
      headIsSpace s = false →
      re_split_after e (part ++ ' ' :: s) acc =
        (acc.reverse ++ part) :: re_split_after e s [] := by
  intro part
  induction part with
  | nil => intro _ _ h; exact absurd rfl h
  | cons c rest ih =>
    intro acc s _ hchain hend hs
    cases rest with
    | nil =>
      rcases hend with ⟨c', hlast, hterm⟩
      simp only [List.getLast?_singleton, Option.some_inj] at hlast
      subst hlast
      rw [List.singleton_append, re_split_after]
      rw [if_pos (by simp [headIsSpace, isPySpace, hterm])]
      have hdrop : (' ' :: s).dropWhile isPySpace = s := by
        rw [List.dropWhile_cons_of_pos (by simp [isPySpace])]
        exact dropWhile_eq_self_of_headIsSpace_false s hs
      rw [hdrop]
    | cons d rs =>
      have hnb : noBreakR e c d := (List.chain'_cons.mp hchain).1
      have hguard : (e c && headIsSpace (d :: rs ++ ' ' :: s)) = false := by
        simp only [List.cons_append, headIsSpace]
        cases hec : e c with
        | false => simp
        | true =>
          cases hsp : isPySpace d with
          | false => simp
          | true => exact absurd ⟨hec, hsp⟩ hnb
      rw [List.cons_append, re_split_after]
      rw [if_neg (by rw [List.cons_append] at hguard ⊢; rw [hguard]; exact Bool.false_ne_true)]
      have hend' : endsTerm e (d :: rs) := by
        rcases hend with ⟨c', hlast, hterm⟩
        rw [List.getLast?_cons_cons] at hlast
        exact ⟨c', hlast, hterm⟩
      have := ih (c :: acc) s (by simp) (List.chain'_cons.mp hchain).2 hend' hs
      rw [this]
      simp

theorem headIsSpace_joinSp (q : List Char) (qs : List (List Char)) (hq : q ≠ []) :
    headIsSpace (joinSp (q :: qs)) = headIsSpace q := by
  cases qs with
  | nil => rfl
  | cons q' qs' =>
    show headIsSpace (q ++ ' ' :: joinSp (q' :: qs')) = headIsSpace q
    exact headIsSpace_append _ _ hq

theorem re_split_after_joinSp (e : Char → Bool) :
    ∀ (parts : List (List Char)), parts ≠ [] →
      (∀ p ∈ parts, p ≠ [] ∧ List.Chain' (noBreakR e) p ∧ headIsSpace p = false) →
      List.Chain' (fun a _ => endsTerm e a) parts →
      re_split_after e (joinSp parts) [] = parts := by
  intro parts
  induction parts with
  | nil => intro h; exact absurd rfl h
  | cons q qs ih =>
    intro _ hall hchain
    cases qs with
    | nil =>
      rcases hall q (List.mem_cons_self _ _) with ⟨_, hch, _⟩
      show re_split_after e q [] = [q]
      rw [re_split_after_noFire e q [] hch]
      simp
    | cons q' qs' =>
      rcases hall q (List.mem_cons_self _ _) with ⟨hqne, hqch, _⟩
      rcases hall q' (List.mem_cons_of_mem _ (List.mem_cons_self _ _)) with ⟨hq'ne, _, hq'h⟩
      show re_split_after e (q ++ ' ' :: joinSp (q' :: qs')) [] = q :: q' :: qs'
      have hendq : endsTerm e q := (List.chain'_cons'.mp hchain).1 q' rfl
      have hsj : headIsSpace (joinSp (q' :: qs')) = false := by
        rw [headIsSpace_joinSp q' qs' hq'ne]; exact hq'h
      rw [re_split_after_boundary e q [] (joinSp (q' :: qs')) hqne hqch hendq hsj]
      rw [ih (by simp) (fun p hp => hall p (List.mem_cons_of_mem _ hp))
        (List.chain'_cons'.mp hchain).2]
      simp

theorem re_split_after_parts_chain (e : Char → Bool) :
    ∀ (l acc : List Char),
      List.Chain' (noBreakR e) acc.reverse →
      (∀ a c, acc.head? = some a → l.head? = some c → noBreakR e a c) →
      ∀ part ∈ re_split_after e l acc, List.Chain' (noBreakR e) part := by
  intro l acc
  induction l, acc using re_split_after.induct e with
  | case1 acc =>
    intro hacc _ part hpart
    rw [re_split_after] at hpart
    rcases List.mem_singleton.mp hpart with rfl
    exact hacc
  | case2 c rest acc hguard ih =>
    intro hacc hlink part hpart
    rw [re_split_after, if_pos hguard] at hpart
    rcases List.mem_cons.mp hpart with rfl | hpart'
    · rw [List.chain'_append]
      refine ⟨hacc, List.chain'_singleton _, ?_⟩
      intro x hx y hy
      rcases List.mem_singleton.mp (by simpa using hy)
      rw [List.getLast?_reverse] at hx
      exact hlink x c hx rfl
    · exact ih (by simp) (by intro a c' ha _; simp at ha) part hpart'
  | case3 c rest acc hguard ih =>
    intro hacc hlink part hpart
    rw [re_split_after, if_neg hguard] at hpart
    refine ih ?_ ?_ part hpart
    · rw [List.reverse_cons, List.chain'_append]
      refine ⟨hacc, List.chain'_singleton _, ?_⟩
      intro x hx y hy
      rcases List.mem_singleton.mp (by simpa using hy)
      rw [List.getLast?_reverse] at hx
      exact hlink x c hx rfl
    · intro a d ha hd
      simp only [List.head?_cons, Option.some_inj] at ha
      subst ha
      intro hcontra
      apply hguard
      cases rest with
      | nil => simp at hd
      | cons d' rs =>
        simp only [List.head?_cons, Option.some_inj] at hd
        subst hd
        simp [headIsSpace, hcontra.1, hcontra.2]

theorem re_split_after_chainEnds (e : Char → Bool) :
    ∀ (l acc : List Char),
      List.Chain' (fun a (_ : List Char) => endsTerm e a) (re_split_after e l acc) := by
  intro l acc
  induction l, acc using re_split_after.induct e with
  | case1 acc => rw [re_split_after]; exact List.chain'_singleton _
  | case2 c rest acc hguard ih =>
    rw [re_split_after, if_pos hguard]
    rw [List.chain'_cons']
    refine ⟨?_, ih⟩
    intro y _
    refine ⟨c, List.getLast?_concat _, ?_⟩
    have hg := hguard
    simp only [Bool.and_eq_true] at hg
    exact hg.1
  | case3 c rest acc hguard ih =>
    rw [re_split_after, if_neg hguard]
    exact ih

theorem endsTerm_pyStrip (e : Char → Bool) (hns : ∀ c, e c = true → isPySpace c = false)
    (x : List Char) (h : endsTerm e x) : endsTerm e (pyStrip x) := by
  rcases h with ⟨c, hlast, hterm⟩
  rcases List.getLast?_eq_some_iff.mp hlast with ⟨l, rfl⟩
  have hcs : isPySpace c = false := hns c hterm
  have hdrop : ∃ l₂, (l ++ [c]).dropWhile isPySpace = l₂ ++ [c] := by
    rw [List.dropWhile_append]
    by_cases he : (l.dropWhile isPySpace).isEmpty
    · rw [if_pos he]
      exact ⟨[], by simp [List.dropWhile_cons, hcs]⟩
    · rw [if_neg he]
      exact ⟨l.dropWhile isPySpace, rfl⟩
  rcases hdrop with ⟨l₂, hl₂⟩
  have hstripend : pyStripEnd (l₂ ++ [c]) = l₂ ++ [c] := by
    rw [pyStripEnd, List.reverse_append, List.reverse_singleton, List.singleton_append,
      List.dropWhile_cons_of_neg (by rw [hcs]; exact Bool.false_ne_true)]
    simp
  refine ⟨c, ?_, hterm⟩
  rw [pyStrip, hl₂, hstripend]
  exact List.getLast?_concat _

/-! ### Idempotence of sentence de-duplication -/

theorem dedup_sentences_eq_joinSp (t : List Char) :
    dedup_sentences t = joinSp (sentence_parts isSentEnd t) := rfl

theorem sentence_parts_joinSp (e : Char → Bool)
    (hns : ∀ c, e c = true → isPySpace c = false) (t : List Char) :
    sentence_parts e (joinSp (sentence_parts e t)) = sentence_parts e t := by
  simp only [sentence_parts]
  set F : List (List Char) :=
    ((re_split_after e t []).map pyStrip).filter (fun p => !p.isEmpty) with hF
  set P : List (List Char) := dedup_seen [] F with hP
  have hmemF : ∀ p ∈ P, p ∈ F := fun p hp => (mem_dedup_seen F [] p hp).1
  have hPne : ∀ p ∈ P, p ≠ [] := by
    intro p hp
    have := (List.mem_filter.mp (hmemF p hp)).2
    simpa using this
  have hPsrc : ∀ p ∈ P, ∃ y ∈ re_split_after e t [], p = pyStrip y := by
    intro p hp
    rcases List.mem_map.mp (List.mem_of_mem_filter (hmemF p hp)) with ⟨y, hy, hpy⟩
    exact ⟨y, hy, hpy.symm⟩
  have hPchain : ∀ p ∈ P, List.Chain' (noBreakR e) p := by
    intro p hp
    rcases hPsrc p hp with ⟨y, hy, rfl⟩
    have hych : List.Chain' (noBreakR e) y := by
      refine re_split_after_parts_chain e t [] ?_ ?_ y hy
      · simp
      · intro a c ha _; simp at ha
    exact hych.infix (pyStrip_isInfix y)
  have hPhead : ∀ p ∈ P, headIsSpace p = false := by
    intro p hp
    rcases hPsrc p hp with ⟨y, _, rfl⟩
    exact headIsSpace_pyStrip y
  have hPlast : ∀ p ∈ P, headIsSpace p.reverse = false := by
    intro p hp
    rcases hPsrc p hp with ⟨y, _, rfl⟩
    exact headIsSpace_reverse_pyStrip y
  have hPends : List.Chain' (fun a (_ : List Char) => endsTerm e a) P := by
    have h1 : List.Chain' (fun a (_ : List Char) => endsTerm e a)
        ((re_split_after e t []).map pyStrip) :=
      List.chain'_map_of_chain' pyStrip
        (fun a _ h => endsTerm_pyStrip e hns a h) (re_split_after_chainEnds e t [])
    have h2 : List.Chain' (fun a (_ : List Char) => endsTerm e a) F := by
      rw [hF]
      exact chain'_of_sublist_fstProp (List.filter_sublist _) h1
    exact chain'_of_sublist_fstProp (dedup_seen_sublist F []) h2
  have hPnd : P.Nodup := dedup_seen_nodup F []
  rcases eq_or_ne P [] with hPnil | hPnonnil
  · rw [hPnil]
    show dedup_seen [] (((re_split_after e (joinSp []) []).map pyStrip).filter
      (fun p => !p.isEmpty)) = []
    show dedup_seen [] (((re_split_after e [] []).map pyStrip).filter (fun p => !p.isEmpty)) = []
    rw [re_split_after]
    rfl
  · rw [re_split_after_joinSp e P hPnonnil
      (fun p hp => ⟨hPne p hp, hPchain p hp, hPhead p hp⟩) hPends]
    have hmap : P.map pyStrip = P := by
      have hc : ∀ p ∈ P, pyStrip p = p := fun p hp =>
        pyStrip_eq_self p (hPhead p hp) (hPlast p hp)
      rw [List.map_congr_left hc]
      simp
    rw [hmap]
    have hfilt : P.filter (fun p => !p.isEmpty) = P := by
      rw [List.filter_eq_self]
      intro p hp
      simpa using hPne p hp
    rw [hfilt]
    exact dedup_seen_eq_self P [] hPnd (by intro x _ hc; simp at hc)

/-- C9: sentence-level deduplication (`_dedup_sentences` of
dokkaninfoBS4scraper.py) is idempotent — applying it to its own output
returns that output unchanged, for every input string. -/
theorem c9_dedup_sentences_idempotent (t : List Char) :
    dedup_sentences (dedup_sentences t) = dedup_sentences t := by
  have hns : ∀ c, isSentEnd c = true → isPySpace c = false := by
    intro c h
    simp only [isSentEnd, Bool.or_eq_true, decide_eq_true_eq] at h
    rcases h with (h | h) | h <;> subst h <;> rfl
  rw [dedup_sentences_eq_joinSp t, dedup_sentences_eq_joinSp (joinSp (sentence_parts isSentEnd t))]
  rw [sentence_parts_joinSp isSentEnd hns t]

/-- C5 counterexample: the claim says the extracted leader-skill text is
derived from the FIRST content line in both scraper variants.  In
dokkaninfoBS4scraper.py, `_clean_leader` joins ALL content lines, so on the
two-line block `["A.", "B."]` it does not agree with its value on the
first line alone. -/
theorem c5_counterexample :
    clean_leader_bs4 [['A', '.'], ['B', '.']] ≠ clean_leader_bs4 [['A', '.']] := by
  have h1 : clean_leader_bs4 [['A', '.'], ['B', '.']] = some ['A', '.', ' ', 'B', '.'] := by
    simp +decide [clean_leader_bs4, condense_spaces, collapseWs, pyStrip, pyStripEnd,
      dedup_sentences, re_split_after, dedup_seen, joinSp, collapse_exploding_rage,
      collapse_er_go, matchExplodingRage, matchToks, matchTok, matchLitCI, explodingRageToks,
      isPySpace, isSentEnd, headIsSpace]
  have h2 : clean_leader_bs4 [['A', '.']] = some ['A', '.'] := by
    simp +decide [clean_leader_bs4, condense_spaces, collapseWs, pyStrip, pyStripEnd,
      dedup_sentences, re_split_after, dedup_seen, joinSp, collapse_exploding_rage,
      collapse_er_go, matchExplodingRage, matchToks, matchTok, matchLitCI, explodingRageToks,
      isPySpace, isSentEnd, headIsSpace]
  rw [h1, h2]
  simp

/-- C5 (amended): for every non-empty "Leader Skill" content block, the
scraper.py variant derives the leader skill from the FIRST content line
only (dropping the remaining lines does not change the result), while the
dokkaninfoBS4scraper.py variant derives it from the space-join of ALL
content lines (it behaves as if the block were that single joined line);
in both variants the text is sentence-deduplicated and the known doubled
"Exploding Rage" pattern is collapsed. -/
theorem c5_leader_first_line :
    (∀ (first : List Char) (rest : List (List Char)),
      clean_leader_scraper (first :: rest) = clean_leader_scraper [first]) ∧
    (∀ block : List (List Char), clean_leader_bs4 block = clean_leader_bs4 [joinSp block]) := by
  constructor
  · intro first rest
    rfl
  · intro block
    cases block with
    | nil =>
      have h2 : clean_leader_bs4 [joinSp []] = none := by
        simp +decide [clean_leader_bs4, condense_spaces, collapseWs, pyStrip, pyStripEnd,
          dedup_sentences, re_split_after, dedup_seen, joinSp, collapse_exploding_rage,
          collapse_er_go, matchExplodingRage, matchToks, matchTok, matchLitCI, explodingRageToks,
          isPySpace, isSentEnd, headIsSpace]
      rw [h2]
      rfl
    | cons b bs =>
      show clean_leader_bs4 (b :: bs) = clean_leader_bs4 [joinSp (b :: bs)]
      rw [clean_leader_bs4, clean_leader_bs4]
      rw [if_neg (show ¬((b :: bs) = []) by simp),
        if_neg (show ¬(([joinSp (b :: bs)] : List (List Char)) = []) by simp)]
      rfl

/-! ### Dictionary-overwrite semantics of the segmenter -/

theorem dict_get_insert {κ α : Type} [DecidableEq κ] (k k' : κ) (v : α) :
    ∀ d : List (κ × α), dict_get k (dict_insert k' v d) =
      if k' = k then some v else dict_get k d := by
  intro d
  induction d with
  | nil => by_cases h : k' = k <;> simp [dict_insert, dict_get, h]
  | cons p rest ih =>
    obtain ⟨a, b⟩ := p
    by_cases ha : a = k'
    · by_cases h : k' = k
      · subst ha; subst h; simp [dict_insert, dict_get]
      · subst ha; simp [dict_insert, dict_get, h]
    · by_cases h : k' = k
      · subst h
        simp [dict_insert, dict_get, ha, ih]
      · by_cases hak : a = k
        · subst hak; simp [dict_insert, dict_get, ha, h, ih]
        · simp [dict_insert, dict_get, ha, h, hak, ih]

theorem dict_get_foldl_insert {κ α : Type} [DecidableEq κ] (k : κ) :
    ∀ (ps d : List (κ × α)),
      dict_get k (ps.foldl (fun d p => dict_insert p.1 p.2 d) d) =
        ((ps.filter (fun p => decide (p.1 = k))).getLast?.map Prod.snd).or
          (dict_get k d) := by
  intro ps
  induction ps using List.reverseRecOn with
  | nil => intro d; simp
  | append_singleton ps p ih =>
    intro d
    rw [List.foldl_append]
    simp only [List.foldl_cons, List.foldl_nil]
    rw [dict_get_insert]
    rw [List.filter_append]
    by_cases h : p.1 = k
    · rw [if_pos h]
      have hfil : List.filter (fun p => decide (p.1 = k)) [p] = [p] := by simp [h]
      rw [hfil, List.getLast?_concat]
      simp
    · rw [if_neg h]
      have hfil : List.filter (fun p => decide (p.1 = k)) [p] = [] := by simp [h]
      rw [hfil, List.append_nil, ih d]

/-- C10: when a recognized section header line occurs more than once in a
page's text, `_split_sections` (both scraper variants; any header list)
binds that header name to the content block of its LAST occurrence only:
the dict entry for a header equals the final (header, block) pair among the
pairs produced by the loop, because later dict assignments overwrite
earlier ones — so the content of every earlier same-named section is absent
from the result. -/
theorem c10_split_sections_last_occurrence
    (headers : List (List Char)) (page_lines : List (List Char)) (h : List Char) :
    dict_get h (split_sections headers page_lines) =
      ((section_pairs (page_lines.map condense_spaces)
          (header_indices headers (page_lines.map condense_spaces))).filter
        (fun p => decide (p.1 = h))).getLast?.map Prod.snd := by
  simp only [split_sections]
  rw [dict_get_foldl_insert]
  simp [dict_get]

/-! ### No-duplicate invariants of links, categories and domains -/

theorem mem_clean_links_go :
    ∀ (block seen : List (List Char)) (x : List Char),
      x ∈ clean_links_go seen block → x ∉ seen := by
  intro block
  induction block with
  | nil => intro seen x hx; simp [clean_links_go] at hx
  | cons line rest ih =>
    intro seen x hx
    simp only [clean_links_go] at hx
    by_cases hc : condense_spaces line = [] ∨ condense_spaces line ∈ seen
    · rw [if_pos hc] at hx
      exact ih seen x hx
    · rw [if_neg hc] at hx
      rcases List.mem_cons.mp hx with rfl | hx'
      · intro hcon; exact hc (Or.inr hcon)
      · intro hcon
        exact ih _ x hx' (List.mem_cons_of_mem _ hcon)

theorem clean_links_go_nodup :
    ∀ (block seen : List (List Char)), (clean_links_go seen block).Nodup := by
  intro block
  induction block with
  | nil => intro seen; simp [clean_links_go]
  | cons line rest ih =>
    intro seen
    simp only [clean_links_go]
    by_cases hc : condense_spaces line = [] ∨ condense_spaces line ∈ seen
    · rw [if_pos hc]; exact ih seen
    · rw [if_neg hc]
      refine List.nodup_cons.mpr ⟨?_, ih _⟩
      intro hmem
      exact mem_clean_links_go rest _ _ hmem (List.mem_cons_self _ _)

theorem clean_links_go_sublist :
    ∀ (block seen : List (List Char)),
      (clean_links_go seen block).Sublist (block.map condense_spaces) := by
  intro block
  induction block with
  | nil => intro seen; simp [clean_links_go]
  | cons line rest ih =>
    intro seen
    simp only [clean_links_go, List.map_cons]
    by_cases hc : condense_spaces line = [] ∨ condense_spaces line ∈ seen
    · rw [if_pos hc]
      exact (ih seen).cons _
    · rw [if_neg hc]
      exact (ih _).cons₂ _

theorem mem_clean_categories_go :
    ∀ (cats seen : List (List Char)) (x : List Char),
      x ∈ clean_categories_go seen cats → x ∉ seen := by
  intro cats
  induction cats with
  | nil => intro seen x hx; simp [clean_categories_go] at hx
  | cons cat rest ih =>
    intro seen x hx
    simp only [clean_categories_go] at hx
    split at hx
    · exact ih seen x hx
    · split at hx
      · exact ih seen x hx
      · split at hx
        · exact ih seen x hx
        · split at hx
          · exact ih seen x hx
          · split at hx
            · exact ih seen x hx
            · split at hx
              · exact ih seen x hx
              · rcases List.mem_cons.mp hx with rfl | hx'
                · rename_i hseen
                  exact hseen
                · intro hcon
                  exact ih _ x hx' (List.mem_cons_of_mem _ hcon)

theorem clean_categories_go_nodup :
    ∀ (cats seen : List (List Char)), (clean_categories_go seen cats).Nodup := by
  intro cats
  induction cats with
  | nil => intro seen; simp [clean_categories_go]
  | cons cat rest ih =>
    intro seen
    simp only [clean_categories_go]
    split
    · exact ih seen
    · split
      · exact ih seen
      · split
        · exact ih seen
        · split
          · exact ih seen
          · split
            · exact ih seen
            · split
              · exact ih seen
              · refine List.nodup_cons.mpr ⟨?_, ih _⟩
                intro hmem
                exact mem_clean_categories_go rest _ _ hmem (List.mem_cons_self _ _)

theorem clean_categories_go_sublist :
    ∀ (cats seen : List (List Char)),
      (clean_categories_go seen cats).Sublist
        (cats.map (fun c => strip_bullets (pyStrip c))) := by
  intro cats
  induction cats with
  | nil => intro seen; simp [clean_categories_go]
  | cons cat rest ih =>
    intro seen
    simp only [clean_categories_go, List.map_cons]
    split
    · exact (ih seen).cons _
    · split
      · exact (ih seen).cons _
      · split
        · exact (ih seen).cons _
        · split
          · exact (ih seen).cons _
          · split
            · exact (ih seen).cons _
            · split
              · exact (ih seen).cons _
              · exact (ih _).cons₂ _

theorem mem_dedup_domains_go :
    ∀ (ds : List Domain) (seen : List (List Char × List Char)) (d : Domain),
      d ∈ dedup_domains_go seen ds → domain_key d ∉ seen := by
  intro ds
  induction ds with
  | nil => intro seen d hd; simp [dedup_domains_go] at hd
  | cons d0 rest ih =>
    intro seen d hd
    rw [dedup_domains_go] at hd
    by_cases hk : domain_key d0 ∈ seen
    · rw [if_pos hk] at hd
      exact ih seen d hd
    · rw [if_neg hk] at hd
      rcases List.mem_cons.mp hd with rfl | hd'
      · exact hk
      · intro hcon
        exact ih _ d hd' (List.mem_cons_of_mem _ hcon)

theorem dedup_domains_go_pairwise :
    ∀ (ds : List Domain) (seen : List (List Char × List Char)),
      (dedup_domains_go seen ds).Pairwise
        (fun d1 d2 => domain_key d1 ≠ domain_key d2) := by
  intro ds
  induction ds with
  | nil => intro seen; simp [dedup_domains_go]
  | cons d0 rest ih =>
    intro seen
    rw [dedup_domains_go]
    by_cases hk : domain_key d0 ∈ seen
    · rw [if_pos hk]; exact ih seen
    · rw [if_neg hk]
      refine List.pairwise_cons.mpr ⟨?_, ih _⟩
      intro d' hd' heq
      exact mem_dedup_domains_go rest _ d' hd' (heq ▸ List.mem_cons_self _ _)

theorem dedup_domains_go_sublist :
    ∀ (ds : List Domain) (seen : List (List Char × List Char)),
      (dedup_domains_go seen ds).Sublist ds := by
  intro ds
  induction ds with
  | nil => intro seen; simp [dedup_domains_go]
  | cons d0 rest ih =>
    intro seen
    rw [dedup_domains_go]
    by_cases hk : domain_key d0 ∈ seen
    · rw [if_pos hk]; exact (ih seen).cons _
    · rw [if_neg hk]; exact (ih _).cons₂ _

/-- C8: for every assembled record, the link-skills list (`_clean_links`)
and the categories list (`_clean_categories_python`) contain no duplicate
strings, and the domains list (`parse_domains`' final pass) contains no two
entries with equal (name, effect) keys; in all three, first-seen order is
preserved — each output is a subsequence of its cleaned input. -/
theorem c8_no_duplicates :
    (∀ block : List (List Char), (clean_links block).Nodup ∧
      (clean_links block).Sublist (block.map condense_spaces)) ∧
    (∀ categories : List (List Char), (clean_categories_python categories).Nodup ∧
      (clean_categories_python categories).Sublist
        (categories.map (fun c => strip_bullets (pyStrip c)))) ∧
    (∀ domains_list : List Domain,
      (dedup_domains domains_list).Pairwise
        (fun d1 d2 => domain_key d1 ≠ domain_key d2) ∧
      (dedup_domains domains_list).Sublist domains_list) := by
  refine ⟨fun block => ⟨?_, ?_⟩, fun cats => ⟨?_, ?_⟩, fun ds => ⟨?_, ?_⟩⟩
  · exact clean_links_go_nodup block []
  · exact clean_links_go_sublist block []
  · exact clean_categories_go_nodup cats []
  · exact clean_categories_go_sublist cats []
  · exact dedup_domains_go_pairwise ds []
  · exact dedup_domains_go_sublist ds []

/-- C3: for a stats table with header row
["Stats","Base Min","Base Max","55%","100%"] and a row `HP 100 200 150 300`,
extraction pairs the cell values positionally with the header labels,
yielding HP = {Base Min: 100, Base Max: 200, 55%: 150, 100%: 300}; assembly
buckets this into base_stats.HP = {Base Min: 100, Base Max: 200} and
hidden_potential_55_percent containing HP = 150; and when the percentage
columns appear in the table in the order 100%, 55%, the emitted percentage
buckets still come out in numeric order (55% before 100%), not in table
column order. -/
theorem c3_stats_positional_bucketing :
    (parse_stats_from_soup [] (some sample_stats_table) =
      [("HP".toList, StatEntry.table
        [("Base Min".toList, 100), ("Base Max".toList, 200),
         ("55%".toList, 150), ("100%".toList, 300)])]) ∧
    ((format_stats_by_percentage
        (parse_stats_from_soup [] (some sample_stats_table))).map Prod.fst =
      ["general_info".toList, "base_stats".toList,
       "hidden_potential_55_percent".toList, "hidden_potential_100_percent".toList]) ∧
    (dict_get "base_stats".toList (format_stats_by_percentage
        (parse_stats_from_soup [] (some sample_stats_table))) =
      some (OutEntry.nested
        [("HP".toList, [("Base Min".toList, 100), ("Base Max".toList, 200)])])) ∧
    (dict_get "hidden_potential_55_percent".toList (format_stats_by_percentage
        (parse_stats_from_soup [] (some sample_stats_table))) =
      some (OutEntry.flat [("HP".toList, 150)])) ∧
    ((format_stats_by_percentage
        (parse_stats_from_soup [] (some sample_stats_table_swapped))).map Prod.fst =
      ["general_info".toList, "base_stats".toList,
       "hidden_potential_55_percent".toList, "hidden_potential_100_percent".toList]) ∧
    (dict_get "hidden_potential_55_percent".toList (format_stats_by_percentage
        (parse_stats_from_soup [] (some sample_stats_table_swapped))) =
      some (OutEntry.flat [("HP".toList, 150)])) := by
  decide

/-! ### Behaviour of the asset classification chain -/

theorem contains_ne_nil (s : List Char) (c : Char) (cs : List Char)
    (h : containsSub s (c :: cs) = true) : s ≠ [] := by
  intro he
  subst he
  simp [containsSub, containsSubGo] at h

theorem m_rare_ne_nil (u : List Char) (h : m_rare u = true) : u ≠ [] := by
  intro he
  subst he
  simp [m_rare, lowerStr, containsSub, containsSubGo] at h

theorem m_type_icon_ne_nil (u : List Char) (h : m_type_icon u = true) : u ≠ [] := by
  intro he
  subst he
  simp [m_type_icon, lowerStr, containsSub, containsSubGo] at h

theorem m_bg_ne_nil (u : List Char) (h : m_bg u = true) : u ≠ [] := by
  intro he
  subst he
  simp [m_bg, lowerStr, containsSub, containsSubGo] at h

theorem m_character_ne_nil (u : List Char) (h : m_character u = true) : u ≠ [] := by
  intro he
  subst he
  simp [m_character, lowerStr, containsSub, containsSubGo] at h

theorem m_effect_ne_nil (u : List Char) (h : m_effect u = true) : u ≠ [] := by
  intro he
  subst he
  simp [m_effect, lowerStr, containsSub, containsSubGo] at h

theorem m_cutin_ne_nil (u : List Char) (h : m_cutin u = true) : u ≠ [] := by
  intro he
  subst he
  simp [m_cutin, lowerStr, containsSub, containsSubGo] at h

theorem step_rarity (cid : List Char) (a : Assets) (u : List Char) :
    (extract_assets_step cid a u).rarity =
      if m_rare u && slot_falsy a.rarity then some u else a.rarity := by
  rw [extract_assets_step]
  split_ifs <;> simp_all

theorem step_type (cid : List Char) (a : Assets) (u : List Char) :
    (extract_assets_step cid a u).type =
      if type_branch u && slot_falsy a.type then some u else a.type := by
  rw [extract_assets_step]
  split_ifs <;> simp_all [type_branch]

theorem step_bg_set (cid : List Char) (a : Assets) (u : List Char)
    (h : id_bg_branch cid u = true) :
    (extract_assets_step cid a u).background = some u := by
  simp only [id_bg_branch, Bool.and_eq_true, Bool.not_eq_true'] at h
  obtain ⟨⟨⟨h1, h2⟩, h3⟩, h4⟩ := h
  rw [extract_assets_step]
  simp [h1, h2, h3, h4]

theorem step_bg_keep (cid : List Char) (a : Assets) (u : List Char) (v : List Char)
    (hb : id_bg_branch cid u = false) (hv : a.background = some v) (hne : v ≠ []) :
    (extract_assets_step cid a u).background = a.background := by
  have hfal : slot_falsy a.background = false := by
    rw [hv]
    simpa [slot_falsy] using hne
  rw [extract_assets_step]
  split_ifs <;> simp_all [id_bg_branch]

theorem step_char_set (cid : List Char) (a : Assets) (u : List Char)
    (h : id_char_branch cid u = true) :
    (extract_assets_step cid a u).character = some u := by
  simp only [id_char_branch, Bool.and_eq_true, Bool.not_eq_true'] at h
  obtain ⟨⟨⟨⟨h1, h2⟩, h3⟩, h4⟩, h5⟩ := h
  rw [extract_assets_step]
  simp [h1, h2, h3, h4, h5]

theorem step_char_keep (cid : List Char) (a : Assets) (u : List Char) (v : List Char)
    (hb : id_char_branch cid u = false) (hv : a.character = some v) (hne : v ≠ []) :
    (extract_assets_step cid a u).character = a.character := by
  have hfal : slot_falsy a.character = false := by
    rw [hv]
    simpa [slot_falsy] using hne
  rw [extract_assets_step]
  split_ifs <;> simp_all [id_char_branch]

theorem step_eff_set (cid : List Char) (a : Assets) (u : List Char)
    (h : id_eff_branch cid u = true) :
    (extract_assets_step cid a u).effect = some u := by
  simp only [id_eff_branch, Bool.and_eq_true, Bool.not_eq_true'] at h
  obtain ⟨⟨⟨⟨⟨h1, h2⟩, h3⟩, h4⟩, h5⟩, h6⟩ := h
  rw [extract_assets_step]
  simp [h1, h2, h3, h4, h5, h6]

theorem step_eff_keep (cid : List Char) (a : Assets) (u : List Char) (v : List Char)
    (hb : id_eff_branch cid u = false) (hv : a.effect = some v) (hne : v ≠ []) :
    (extract_assets_step cid a u).effect = a.effect := by
  have hfal : slot_falsy a.effect = false := by
    rw [hv]
    simpa [slot_falsy] using hne
  rw [extract_assets_step]
  split_ifs <;> simp_all [id_eff_branch]

theorem step_cut_set (cid : List Char) (a : Assets) (u : List Char)
    (h : id_cut_branch cid u = true) :
    (extract_assets_step cid a u).cutin = some u := by
  simp only [id_cut_branch, Bool.and_eq_true, Bool.not_eq_true'] at h
  obtain ⟨⟨⟨⟨⟨⟨h1, h2⟩, h3⟩, h4⟩, h5⟩, h6⟩, h7⟩ := h
  rw [extract_assets_step]
  simp [h1, h2, h3, h4, h5, h6, h7]

theorem step_cut_keep (cid : List Char) (a : Assets) (u : List Char) (v : List Char)
    (hb : id_cut_branch cid u = false) (hv : a.cutin = some v) (hne : v ≠ []) :
    (extract_assets_step cid a u).cutin = a.cutin := by
  have hfal : slot_falsy a.cutin = false := by
    rw [hv]
    simpa [slot_falsy] using hne
  rw [extract_assets_step]
  split_ifs <;> simp_all [id_cut_branch]

theorem fold_rarity_keep (cid : List Char) :
    ∀ (urls : List (List Char)) (a : Assets) (v : List Char),
      a.rarity = some v → v ≠ [] →
      (urls.foldl (extract_assets_step cid) a).rarity = some v := by
  intro urls
  induction urls with
  | nil => intro a v hv _; exact hv
  | cons u rest ih =>
    intro a v hv hne
    rw [List.foldl_cons]
    refine ih _ v ?_ hne
    rw [step_rarity, hv]
    simp [slot_falsy, hne]

theorem fold_rarity_fill (cid : List Char) :
    ∀ (urls : List (List Char)) (a : Assets), a.rarity = none →
      (urls.foldl (extract_assets_step cid) a).rarity =
        (urls.filter rarity_branch).head? := by
  intro urls
  induction urls with
  | nil => intro a hv; simpa using hv
  | cons u rest ih =>
    intro a hv
    rw [List.foldl_cons, List.filter_cons]
    by_cases hr : m_rare u
    · rw [if_pos (by simpa [rarity_branch] using hr)]
      rw [List.head?_cons]
      refine fold_rarity_keep cid rest _ u ?_ (m_rare_ne_nil u hr)
      rw [step_rarity, hv]
      simp [slot_falsy, hr]
    · rw [if_neg (by simpa [rarity_branch] using hr)]
      refine ih _ ?_
      rw [step_rarity, hv]
      simp [hr]

theorem fold_type_keep (cid : List Char) :
    ∀ (urls : List (List Char)) (a : Assets) (v : List Char),
      a.type = some v → v ≠ [] →
      (urls.foldl (extract_assets_step cid) a).type = some v := by
  intro urls
  induction urls with
  | nil => intro a v hv _; exact hv
  | cons u rest ih =>
    intro a v hv hne
    rw [List.foldl_cons]
    refine ih _ v ?_ hne
    rw [step_type, hv]
    simp [slot_falsy, hne]

theorem fold_type_fill (cid : List Char) :
    ∀ (urls : List (List Char)) (a : Assets), a.type = none →
      (urls.foldl (extract_assets_step cid) a).type =
        (urls.filter type_branch).head? := by
  intro urls
  induction urls with
  | nil => intro a hv; simpa using hv
  | cons u rest ih =>
    intro a hv
    rw [List.foldl_cons, List.filter_cons]
    by_cases ht : type_branch u
    · rw [if_pos ht]
      rw [List.head?_cons]
      have hticon : m_type_icon u = true := by
        simp only [type_branch, Bool.and_eq_true] at ht
        exact ht.2
      refine fold_type_keep cid rest _ u ?_ (m_type_icon_ne_nil u hticon)
      rw [step_type, hv]
      simp [slot_falsy, ht]
    · rw [if_neg ht]
      refine ih _ ?_
      rw [step_type, hv]
      simp [ht]

theorem fold_bg_last (cid : List Char) :
    ∀ (urls : List (List Char)) (a : Assets),
      (urls.filter (id_bg_branch cid)) ≠ [] →
      (urls.foldl (extract_assets_step cid) a).background =
        (urls.filter (id_bg_branch cid)).getLast? := by
  intro urls
  induction urls using List.reverseRecOn with
  | nil => intro a h; simp at h
  | append_singleton rest u ih =>
    intro a hne
    rw [List.foldl_append, List.foldl_cons, List.foldl_nil, List.filter_append]
    by_cases hb : id_bg_branch cid u
    · have hfil : List.filter (id_bg_branch cid) [u] = [u] := by simp [hb]
      rw [hfil, List.getLast?_concat]
      exact step_bg_set cid _ u hb
    · have hfil : List.filter (id_bg_branch cid) [u] = [] := by simp [hb]
      rw [hfil, List.append_nil]
      rw [List.filter_append, hfil, List.append_nil] at hne
      cases hlast : (rest.filter (id_bg_branch cid)).getLast? with
      | none => exact absurd ((List.getLast?_eq_none_iff).mp hlast) hne
      | some v =>
        have hmem := List.mem_of_getLast?_eq_some hlast
        have hvb : id_bg_branch cid v = true := (List.mem_filter.mp hmem).2
        have hvne : v ≠ [] := by
          simp only [id_bg_branch, Bool.and_eq_true] at hvb
          exact m_bg_ne_nil v hvb.2
        have hprev := ih a hne
        rw [step_bg_keep cid _ u v (by simpa using hb) (by rw [hprev, hlast]) hvne,
          hprev, hlast]

theorem fold_char_last (cid : List Char) :
    ∀ (urls : List (List Char)) (a : Assets),
      (urls.filter (id_char_branch cid)) ≠ [] →
      (urls.foldl (extract_assets_step cid) a).character =
        (urls.filter (id_char_branch cid)).getLast? := by
  intro urls
  induction urls using List.reverseRecOn with
  | nil => intro a h; simp at h
  | append_singleton rest u ih =>
    intro a hne
    rw [List.foldl_append, List.foldl_cons, List.foldl_nil, List.filter_append]
    by_cases hb : id_char_branch cid u
    · have hfil : List.filter (id_char_branch cid) [u] = [u] := by simp [hb]
      rw [hfil, List.getLast?_concat]
      exact step_char_set cid _ u hb
    · have hfil : List.filter (id_char_branch cid) [u] = [] := by simp [hb]
      rw [hfil, List.append_nil]
      rw [List.filter_append, hfil, List.append_nil] at hne
      cases hlast : (rest.filter (id_char_branch cid)).getLast? with
      | none => exact absurd ((List.getLast?_eq_none_iff).mp hlast) hne
      | some v =>
        have hmem := List.mem_of_getLast?_eq_some hlast
        have hvb : id_char_branch cid v = true := (List.mem_filter.mp hmem).2
        have hvne : v ≠ [] := by
          simp only [id_char_branch, Bool.and_eq_true] at hvb
          exact m_character_ne_nil v hvb.2
        have hprev := ih a hne
        rw [step_char_keep cid _ u v (by simpa using hb) (by rw [hprev, hlast]) hvne,
          hprev, hlast]

theorem fold_eff_last (cid : List Char) :
    ∀ (urls : List (List Char)) (a : Assets),
      (urls.filter (id_eff_branch cid)) ≠ [] →
      (urls.foldl (extract_assets_step cid) a).effect =
        (urls.filter (id_eff_branch cid)).getLast? := by
  intro urls
  induction urls using List.reverseRecOn with
  | nil => intro a h; simp at h
  | append_singleton rest u ih =>
    intro a hne
    rw [List.foldl_append, List.foldl_cons, List.foldl_nil, List.filter_append]
    by_cases hb : id_eff_branch cid u
    · have hfil : List.filter (id_eff_branch cid) [u] = [u] := by simp [hb]
      rw [hfil, List.getLast?_concat]
      exact step_eff_set cid _ u hb
    · have hfil : List.filter (id_eff_branch cid) [u] = [] := by simp [hb]
      rw [hfil, List.append_nil]
      rw [List.filter_append, hfil, List.append_nil] at hne
      cases hlast : (rest.filter (id_eff_branch cid)).getLast? with
      | none => exact absurd ((List.getLast?_eq_none_iff).mp hlast) hne
      | some v =>
        have hmem := List.mem_of_getLast?_eq_some hlast
        have hvb : id_eff_branch cid v = true := (List.mem_filter.mp hmem).2
        have hvne : v ≠ [] := by
          simp only [id_eff_branch, Bool.and_eq_true] at hvb
          exact m_effect_ne_nil v hvb.2
        have hprev := ih a hne
        rw [step_eff_keep cid _ u v (by simpa using hb) (by rw [hprev, hlast]) hvne,
          hprev, hlast]

theorem fold_cut_last (cid : List Char) :
    ∀ (urls : List (List Char)) (a : Assets),
      (urls.filter (id_cut_branch cid)) ≠ [] →
      (urls.foldl (extract_assets_step cid) a).cutin =
        (urls.filter (id_cut_branch cid)).getLast? := by
  intro urls
  induction urls using List.reverseRecOn with
  | nil => intro a h; simp at h
  | append_singleton rest u ih =>
    intro a hne
    rw [List.foldl_append, List.foldl_cons, List.foldl_nil, List.filter_append]
    by_cases hb : id_cut_branch cid u
    · have hfil : List.filter (id_cut_branch cid) [u] = [u] := by simp [hb]
      rw [hfil, List.getLast?_concat]
      exact step_cut_set cid _ u hb
    · have hfil : List.filter (id_cut_branch cid) [u] = [] := by simp [hb]
      rw [hfil, List.append_nil]
      rw [List.filter_append, hfil, List.append_nil] at hne
      cases hlast : (rest.filter (id_cut_branch cid)).getLast? with
      | none => exact absurd ((List.getLast?_eq_none_iff).mp hlast) hne
      | some v =>
        have hmem := List.mem_of_getLast?_eq_some hlast
        have hvb : id_cut_branch cid v = true := (List.mem_filter.mp hmem).2
        have hvne : v ≠ [] := by
          simp only [id_cut_branch, Bool.and_eq_true] at hvb
          exact m_cutin_ne_nil v hvb.2
        have hprev := ih a hne
        rw [step_cut_keep cid _ u v (by simpa using hb) (by rw [hprev, hlast]) hvne,
          hprev, hlast]

/-- C4 counterexample: the claim says the FIRST URL matching a category is
kept and never overwritten; but for two character-id-qualified background
URLs, the classification assigns unconditionally, so the LAST one wins. -/
theorem c4_counterexample :
    (extract_assets ["a123_bg.png".toList, "b123_bg.png".toList] "123".toList).background =
      some "b123_bg.png".toList ∧
    (extract_assets ["a123_bg.png".toList, "b123_bg.png".toList] "123".toList).background ≠
      some "a123_bg.png".toList := by
  decide

/-- C4 (amended): in asset-category classification, first-match-wins holds
for the rarity-icon and type-icon categories (a later matching URL never
overwrites a filled slot), but for the four character-card-art categories
(background, character art, effect art, cut-in art) a character-id-qualified
match assigns unconditionally, so among id-qualified matches the LAST one
wins; the looser character-card-asset-path fallback only fills an empty
slot, so the id-qualified value still prevails over any fallback match. -/
theorem c4_assets_classification (cid : List Char) (urls : List (List Char)) :
    ((extract_assets urls cid).rarity = (urls.filter rarity_branch).head?) ∧
    ((extract_assets urls cid).type = (urls.filter type_branch).head?) ∧
    ((urls.filter (id_bg_branch cid)) ≠ [] →
      (extract_assets urls cid).background = (urls.filter (id_bg_branch cid)).getLast?) ∧
    ((urls.filter (id_char_branch cid)) ≠ [] →
      (extract_assets urls cid).character = (urls.filter (id_char_branch cid)).getLast?) ∧
    ((urls.filter (id_eff_branch cid)) ≠ [] →
      (extract_assets urls cid).effect = (urls.filter (id_eff_branch cid)).getLast?) ∧
    ((urls.filter (id_cut_branch cid)) ≠ [] →
      (extract_assets urls cid).cutin = (urls.filter (id_cut_branch cid)).getLast?) := by
  refine ⟨?_, ?_, ?_, ?_, ?_, ?_⟩
  · exact fold_rarity_fill cid urls Assets.initial rfl
  · exact fold_type_fill cid urls Assets.initial rfl
  · exact fun h => fold_bg_last cid urls Assets.initial h
  · exact fun h => fold_char_last cid urls Assets.initial h
  · exact fun h => fold_eff_last cid urls Assets.initial h
  · exact fun h => fold_cut_last cid urls Assets.initial h

/-- C4 witness: the amended classification evaluated on a concrete URL
list with two rarity icons, one type icon, two id-qualified backgrounds and
one id-qualified match for each remaining category. -/
theorem c4_assets_classification_witness :
    (extract_assets ["cha_rare_sm_lr.png".toList, "cha_rare_ur.png".toList,
      "cha_type_icon_agl.png".toList, "a123_bg.png".toList, "b123_bg.png".toList,
      "a123_character.png".toList, "a123_effect.png".toList,
      "a123_cutin.png".toList] "123".toList).rarity = some "cha_rare_sm_lr.png".toList ∧
    (extract_assets ["cha_rare_sm_lr.png".toList, "cha_rare_ur.png".toList,
      "cha_type_icon_agl.png".toList, "a123_bg.png".toList, "b123_bg.png".toList,
      "a123_character.png".toList, "a123_effect.png".toList,
      "a123_cutin.png".toList] "123".toList).background = some "b123_bg.png".toList ∧
    (extract_assets ["cha_rare_sm_lr.png".toList, "cha_rare_ur.png".toList,
      "cha_type_icon_agl.png".toList, "a123_bg.png".toList, "b123_bg.png".toList,
      "a123_character.png".toList, "a123_effect.png".toList,
      "a123_cutin.png".toList] "123".toList).cutin = some "a123_cutin.png".toList := by
  have h := c4_assets_classification "123".toList
    ["cha_rare_sm_lr.png".toList, "cha_rare_ur.png".toList,
     "cha_type_icon_agl.png".toList, "a123_bg.png".toList, "b123_bg.png".toList,
     "a123_character.png".toList, "a123_effect.png".toList, "a123_cutin.png".toList]
  refine ⟨?_, ?_, ?_⟩
  · rw [h.1]
    decide
  · rw [h.2.2.1 (by decide)]
    decide
  · rw [h.2.2.2.2.2 (by decide)]
    decide

/-- C7: in the crawl frontier, when an index page yields no card links,
the iteration computes the next paginated URL by incrementing the `page`
query parameter; if that URL equals the current index URL the frontier
reaches the terminal Done state, and otherwise it continues with a state
whose index URL differs from the current one — it never loops on the same
URL. -/
theorem c7_frontier_stops (s : CrawlState)
    (hpages : s.pages_processed < max_pages_to_scrape)
    (hsaved : s.new_cards_saved < max_new_cards_to_save) :
    (build_next_index_url s.current_index_url = s.current_index_url →
      crawl_iteration_no_links s = CrawlOutcome.done) ∧
    (∀ s', crawl_iteration_no_links s = CrawlOutcome.continue_with s' →
      s'.current_index_url ≠ s.current_index_url ∧
      s'.pages_processed = s.pages_processed + 1) := by
  constructor
  · intro heq
    rw [crawl_iteration_no_links, if_neg (by simpa using hpages),
      if_neg (by simpa using Nat.not_le.mpr hsaved), if_pos heq]
  · intro s' hs'
    rw [crawl_iteration_no_links, if_neg (by simpa using hpages),
      if_neg (by simpa using Nat.not_le.mpr hsaved)] at hs'
    by_cases heq : build_next_index_url s.current_index_url = s.current_index_url
    · rw [if_pos heq] at hs'
      cases hs'
    · rw [if_neg heq] at hs'
      cases hs'
      exact ⟨heq, rfl⟩

/-- C7 witness: the frontier theorem applied at the concrete starting index
URL; since the computed next URL (adding `page=2`) differs, the iteration
does not continue on the same URL. -/
theorem c7_frontier_stops_witness :
    crawl_iteration_no_links
        ⟨"https://dokkaninfo.com/cards?sort=open_at".toList, 0, 0⟩ ≠
      CrawlOutcome.continue_with
        ⟨"https://dokkaninfo.com/cards?sort=open_at".toList, 1, 0⟩ := by
  have h := c7_frontier_stops
    ⟨"https://dokkaninfo.com/cards?sort=open_at".toList, 0, 0⟩
    (by decide) (by decide)
  intro hc
  exact (h.2 _ hc).1 rfl

/-- C6: whenever the document-order search finds a PRE-EZA/EZA toggle row
whose structurally next sibling row mentions "Step:" and carries a
selected-value span whose stripped text is "4", EZA parsing returns
has_eza = true, eza_step = 4 and is_seza = true; and whenever no toggle row
exists, it returns the default record — has_eza = false, eza_step absent,
is_seza = false. -/
theorem c6_parse_eza (doc : List Node) :
    (∀ (toggle : Node) (siblings : List Node) (step_row span : Node),
      find_with_siblings is_eza_toggle_row doc = some (toggle, siblings) →
      find_next_sibling_row siblings = some step_row →
      containsSub (getText step_row) "Step:".toList = true →
      find_span_ms (childrenOf step_row) = some span →
      getTextStrip span = "4".toList →
      (parse_eza_info doc).has_eza = true ∧
      (parse_eza_info doc).eza_step = some 4 ∧
      (parse_eza_info doc).is_seza = true) ∧
    (find_with_siblings is_eza_toggle_row doc = none →
      parse_eza_info doc = eza_info_default) := by
  constructor
  · intro toggle siblings step_row span h1 h2 h3 h4 h5
    have hint : pyInt ("4".toList) = some 4 := rfl
    rw [parse_eza_info, h1]
    simp only [h2, h3, if_true, h4, h5, hint]
    cases hdates : find_first_node is_release_section_div doc <;> simp
  · intro h
    rw [parse_eza_info, h]

/-- C6 witness: the EZA theorem applied to the concrete sample DOM (toggle
row, then a Step: row whose selected value reads "4") and to the empty
document. -/
theorem c6_parse_eza_witness :
    (parse_eza_info sample_eza_doc).has_eza = true ∧
    (parse_eza_info sample_eza_doc).eza_step = some 4 ∧
    (parse_eza_info sample_eza_doc).is_seza = true ∧
    parse_eza_info [] = eza_info_default := by
  have h := (c6_parse_eza sample_eza_doc).1 sample_toggle_row [sample_step_row]
    sample_step_row sample_step_span
    (by simp [sample_eza_doc, find_with_siblings, is_eza_toggle_row, sample_toggle_row,
      sample_step_row, sample_step_span, getText, textFragments, textFragmentsList,
      containsSub, containsSubGo, List.isPrefixOf])
    (by simp [find_next_sibling_row, sample_step_row])
    (by simp [sample_step_row, sample_step_span, getText, textFragments, textFragmentsList,
      containsSub, containsSubGo, List.isPrefixOf])
    (by simp [sample_step_row, sample_step_span, childrenOf, find_span_ms])
    (by simp [sample_step_span, getTextStrip, textFragments, textFragmentsList, pyStrip,
      pyStripEnd, isPySpace])
  exact ⟨h.1, h.2.1, h.2.2, (c6_parse_eza []).2 (by simp [find_with_siblings])⟩

/-- C1 counterexample: on a page where a single field extractor — the stats
parse — raises while every other extractor returns its default value,
`scrape_card_from_html` propagates the exception and assembles no record,
instead of degrading the failed field and completing the page. -/
theorem c1_counterexample :
    scrape_card_from_html sample_failing_extractors =
      Except.error "ValueError".toList ∧
    pyOk (scrape_card_from_html sample_failing_extractors) = false :=
  ⟨rfl, rfl⟩

/-- C1 (amended): the record-assembly boundary of `scrape_card_from_html`
contains no exception handler.  (1) When no extractor raises, the record is
assembled from exactly the returned values, so absent data degrades to a
default only inside the individual extractors — e.g. an empty Leader Skill
block yields `None`, empty Link Skills and Categories blocks yield `[]`.
(2) For every page, a record is assembled iff NO extractor call raised: a
single field's exception aborts the whole page's record rather than being
caught and degraded. -/
theorem c1_exception_propagation :
    (∀ l s u p a li c st r im n d e,
      scrape_card_from_html ⟨Except.ok l, Except.ok s, Except.ok u,
          Except.ok p, Except.ok a, Except.ok li, Except.ok c, Except.ok st,
          Except.ok r, Except.ok im, Except.ok n, Except.ok d, Except.ok e⟩ =
        Except.ok ⟨n, l, s, u, p, a, li, c, st, r, d, e, im⟩) ∧
    (∀ ex : Extractors,
      pyOk (scrape_card_from_html ex) =
        (pyOk ex.leader && pyOk ex.super_attack && pyOk ex.ultra_super_attack
          && pyOk ex.passive && pyOk ex.active && pyOk ex.links
          && pyOk ex.categories && pyOk ex.stats && pyOk ex.release
          && pyOk ex.images && pyOk ex.naming && pyOk ex.domains
          && pyOk ex.eza)) ∧
    clean_leader_bs4 [] = none ∧ clean_links [] = [] ∧
    clean_categories_python [] = [] := by
  refine ⟨fun l s u p a li c st r im n d e => rfl, ?_, rfl, rfl, rfl⟩
  intro ex
  obtain ⟨l, s, u, p, a, li, c, st, r, im, n, d, e⟩ := ex
  cases l with
  | error m => rfl
  | ok lv =>
  cases s with
  | error m => rfl
  | ok sv =>
  cases u with
  | error m => rfl
  | ok uv =>
  cases p with
  | error m => rfl
  | ok pv =>
  cases a with
  | error m => rfl
  | ok av =>
  cases li with
  | error m => rfl
  | ok liv =>
  cases c with
  | error m => rfl
  | ok cv =>
  cases st with
  | error m => rfl
  | ok stv =>
  cases r with
  | error m => rfl
  | ok rv =>
  cases im with
  | error m => rfl
  | ok imv =>
  cases n with
  | error m => rfl
  | ok nv =>
  cases d with
  | error m => rfl
  | ok dv =>
  cases e with
  | error m => rfl
  | ok ev => rfl

/-- C2: REFUTED (code bug).  The claim requires the index upsert to persist
by writing the serialized index to a temporary file and renaming it over
`CARDS_INDEX.json`.  In the code, `save_index` — the persistence step of
the upsert in `write_card_outputs_and_update_index` — performs exactly one
direct `write_text` to `INDEX_FILE_PATH` after an idempotent `mkdir`: for
every serialized index, its trace is that direct write, contains no rename
at all, and hence fails the write-to-temp-then-replace discipline. -/
theorem c2_save_index_not_atomic (serialized : List Char) :
    save_index_trace serialized =
      [FsOp.mkdir index_parent_dir,
       FsOp.write_file index_file_path serialized] ∧
    (∀ src dst, FsOp.rename src dst ∉ save_index_trace serialized) ∧
    ¬ atomic_replace_discipline (save_index_trace serialized) index_file_path := by
  refine ⟨rfl, ?_, ?_⟩
  · intro src dst h
    simp [save_index_trace] at h
  · rintro ⟨-, tmp, -, -, hr⟩
    simp [save_index_trace] at hr

end Dokkan
